import Mathlib

/-!
Formal model of the `lantern-allocators` repository: the segment manager
(`src/memory_segmenter/mod.rs`) and the linked-list allocator built on it
(`src/allocators/linked_list_allocator.rs`).

Modelling conventions.
* Raw addresses are `Nat`; the null pointer is `0`.
* Machine words (`usize`) are `Nat`.  The bit-field accesses of
  `SegmentMetadata` (`get_bits`, `set_bits`, `get_bit`, `set_bit`) are
  expressed with division and remainder by powers of two, which agrees with
  the 64-bit source for all word values below `2^64`; no operation in the
  source can overflow a 64-bit word on states whose blocks lie inside a
  valid address range, so wrap-around is not modelled.
* The managed region's bytes are modelled as an association list from header
  addresses to `SegmentMetadata` records; `core::ptr::write` prepends,
  reads take the most recent write.  Reading an address that never held a
  header, dereferencing null, `todo!()`, a failed `unwrap`/`expect`, and the
  panics of `set_size` and of `align_offset` (whose contract requires a
  power of two) are all mapped to the `panic` outcome.
* The allocator's mutex wraps every operation whole; a single-threaded model
  of the guarded body is therefore exact, and the lock itself is erased.
-/

/-- Header record, from `struct SegmentMetadata { prev, size }`.
The source's `size` field packs flags into the low bits; it is called
`size_word` here because Lean cannot give a field and its masked accessor
the same name. -/
structure SegmentMetadata where
  prev : Nat
  size_word : Nat
deriving DecidableEq, Repr

namespace SegmentMetadata

/-- `size_of::<SegmentMetadata>()` on x86-64: one pointer plus one `usize`. -/
def SIZE : Nat := 16

/-- `pub fn size(&self) -> usize { self.size.get_bits(3..) << 3 }` -/
def size (m : SegmentMetadata) : Nat := m.size_word / 8 * 8

/-- `pub fn size_allocable(&self) -> usize { self.size() - Self::SIZE }`
(`usize` subtraction; only ever called on blocks with `size ≥ SIZE`). -/
def size_allocable (m : SegmentMetadata) : Nat := m.size - SIZE

/-- `pub fn in_use(&self) -> bool { self.size.get_bit(0) }` -/
def in_use (m : SegmentMetadata) : Bool := m.size_word % 2 == 1

/-- `pub fn next_exists(&self) -> bool { self.size.get_bit(1) }` -/
def next_exists (m : SegmentMetadata) : Bool := m.size_word / 2 % 2 == 1

/-- `pub fn set_in_use(&mut self, in_use: bool)`: sets bit 0. -/
def set_in_use (m : SegmentMetadata) (b : Bool) : SegmentMetadata :=
  { m with size_word := m.size_word / 2 * 2 + (bif b then 1 else 0) }

/-- `pub fn set_next_exists(&mut self, next_exists: bool)`: sets bit 1. -/
def set_next_exists (m : SegmentMetadata) (b : Bool) : SegmentMetadata :=
  { m with size_word := m.size_word / 4 * 4 + (bif b then 2 else 0) + m.size_word % 2 }

/-- `pub fn set_size(&mut self, size: usize)`: panics (`none`) when the low
three bits of `size` are nonzero, otherwise stores bits `3..` while keeping
the flag bits `0..3`. -/
def set_size (m : SegmentMetadata) (s : Nat) : Option SegmentMetadata :=
  if s % 8 ≠ 0 then none
  else some { m with size_word := s / 8 * 8 + m.size_word % 8 }

/-- `pub fn set_prev(&mut self, prev: *mut SegmentMetadata)` -/
def set_prev (m : SegmentMetadata) (p : Nat) : SegmentMetadata :=
  { m with prev := p }

/-- `pub fn new(prev, size, in_use, next_exists) -> Self`: stores the raw
size word, then overwrites bits 0 and 1 with the flags.  No validation. -/
def new (prev size : Nat) (iu ne : Bool) : SegmentMetadata :=
  (({ prev := prev, size_word := size } : SegmentMetadata).set_in_use iu).set_next_exists ne

/-- `pub fn alloc_start_ptr(&self) -> *mut u8`: the payload pointer, one
header past the header address `a`. -/
def alloc_start_ptr (a : Nat) : Nat := a + SIZE

/-- `pub fn end_exclusive(&self) -> *mut u8` for the header at address `a`. -/
def end_exclusive (a : Nat) (m : SegmentMetadata) : Nat := a + m.size

/-- `pub fn next(&self) -> Option<*mut SegmentMetadata>` for the header at
address `a`. -/
def next (a : Nat) (m : SegmentMetadata) : Option Nat :=
  bif m.next_exists then some (a + m.size) else none

@[simp] theorem set_in_use_prev (m : SegmentMetadata) (b : Bool) :
    (m.set_in_use b).prev = m.prev := rfl

@[simp] theorem set_next_exists_prev (m : SegmentMetadata) (b : Bool) :
    (m.set_next_exists b).prev = m.prev := rfl

@[simp] theorem set_prev_prev (m : SegmentMetadata) (p : Nat) :
    (m.set_prev p).prev = p := rfl

@[simp] theorem set_prev_size (m : SegmentMetadata) (p : Nat) :
    (m.set_prev p).size = m.size := rfl

@[simp] theorem set_prev_in_use (m : SegmentMetadata) (p : Nat) :
    (m.set_prev p).in_use = m.in_use := rfl

@[simp] theorem set_prev_next_exists (m : SegmentMetadata) (p : Nat) :
    (m.set_prev p).next_exists = m.next_exists := rfl

@[simp] theorem set_in_use_in_use (m : SegmentMetadata) (b : Bool) :
    (m.set_in_use b).in_use = b := by
  cases b <;> simp [set_in_use, in_use] <;> omega

@[simp] theorem set_in_use_next_exists (m : SegmentMetadata) (b : Bool) :
    (m.set_in_use b).next_exists = m.next_exists := by
  cases b <;> simp [set_in_use, next_exists] <;> omega

@[simp] theorem set_in_use_size (m : SegmentMetadata) (b : Bool) :
    (m.set_in_use b).size = m.size := by
  cases b <;> simp [set_in_use, size] <;> omega

@[simp] theorem set_next_exists_in_use (m : SegmentMetadata) (b : Bool) :
    (m.set_next_exists b).in_use = m.in_use := by
  cases b <;> simp [set_next_exists, in_use] <;> omega

@[simp] theorem set_next_exists_next_exists (m : SegmentMetadata) (b : Bool) :
    (m.set_next_exists b).next_exists = b := by
  cases b <;> simp [set_next_exists, next_exists] <;> omega

@[simp] theorem set_next_exists_size (m : SegmentMetadata) (b : Bool) :
    (m.set_next_exists b).size = m.size := by
  cases b <;> simp [set_next_exists, size] <;> omega

@[simp] theorem new_prev (p s : Nat) (iu ne : Bool) : (new p s iu ne).prev = p := rfl

@[simp] theorem new_in_use (p s : Nat) (iu ne : Bool) : (new p s iu ne).in_use = iu := by
  simp [new]

@[simp] theorem new_next_exists (p s : Nat) (iu ne : Bool) :
    (new p s iu ne).next_exists = ne := by
  simp [new]

@[simp] theorem new_size (p s : Nat) (iu ne : Bool) : (new p s iu ne).size = s / 8 * 8 := by
  unfold new
  rw [set_next_exists_size, set_in_use_size]
  rfl

theorem new_size_of_mod (p s : Nat) (iu ne : Bool) (h : s % 8 = 0) :
    (new p s iu ne).size = s := by
  simp [new_size]; omega

theorem set_size_eq_none_iff (m : SegmentMetadata) (s : Nat) :
    m.set_size s = none ↔ s % 8 ≠ 0 := by
  simp [set_size]

theorem set_size_of_mod (m : SegmentMetadata) (s : Nat) (h : s % 8 = 0) :
    m.set_size s = some { m with size_word := s / 8 * 8 + m.size_word % 8 } := by
  simp [set_size, h]

theorem set_size_spec (m m' : SegmentMetadata) (s : Nat) (h : m.set_size s = some m') :
    s % 8 = 0 ∧ m'.size = s ∧ m'.in_use = m.in_use ∧ m'.next_exists = m.next_exists ∧
      m'.prev = m.prev := by
  unfold set_size at h
  split at h
  · exact Option.noConfusion h
  · next h8 =>
    rw [not_not] at h8
    injection h with h'
    subst h'
    refine ⟨h8, ?_, ?_, ?_, rfl⟩
    · simp [size]; omega
    · simp [in_use]; omega
    · simp [next_exists]; omega

end SegmentMetadata

/-- `<*mut u8>::align_offset(self, a)` for a power-of-two `a`: the number of
bytes to add to `p` to reach the next address divisible by `a`.  The source
relies on `align_offset`'s contract that `a` is a power of two; the callers
below check that and panic otherwise. -/
def align_offset (p a : Nat) : Nat := (a - p % a) % a

/-- Power-of-two test with explicit fuel so that the definition reduces in
the kernel (repeated halving). -/
def isPow2Aux : Nat → Nat → Bool
  | 0, _ => false
  | f + 1, n =>
    if n = 0 then false
    else if n = 1 then true
    else if n % 2 = 1 then false
    else isPow2Aux f (n / 2)

/-- `n` is a power of two (`align_offset`'s contract on alignments). -/
def isPow2 (n : Nat) : Bool := isPow2Aux n n

theorem isPow2Aux_iff (f : Nat) : ∀ n, n ≤ f → (isPow2Aux f n = true ↔ ∃ k, n = 2 ^ k) := by
  induction f with
  | zero =>
    intro n hn
    have hn0 : n = 0 := by omega
    subst hn0
    simp only [isPow2Aux]
    constructor
    · intro h; exact Bool.noConfusion h
    · rintro ⟨k, hk⟩
      have := pow_pos (show (0:ℕ) < 2 by omega) k
      omega
  | succ f ih =>
    intro n hn
    simp only [isPow2Aux]
    split_ifs with h0 h1 hodd
    · subst h0
      constructor
      · intro h; exact h.elim
      · rintro ⟨k, hk⟩
        have := pow_pos (show (0:ℕ) < 2 by omega) k
        omega
    · subst h1
      exact iff_of_true rfl ⟨0, rfl⟩
    · constructor
      · intro h; exact h.elim
      · rintro ⟨k, hk⟩
        have hk1 : k ≠ 0 := by rintro rfl; omega
        obtain ⟨k', rfl⟩ := Nat.exists_eq_succ_of_ne_zero hk1
        rw [pow_succ] at hk
        omega
    · have hle : n / 2 ≤ f := by omega
      rw [ih (n / 2) hle]
      constructor
      · rintro ⟨k, hk⟩
        exact ⟨k + 1, by rw [pow_succ]; omega⟩
      · rintro ⟨k, hk⟩
        have hk1 : k ≠ 0 := by rintro rfl; omega
        obtain ⟨k', rfl⟩ := Nat.exists_eq_succ_of_ne_zero hk1
        rw [pow_succ] at hk
        exact ⟨k', by omega⟩

theorem isPow2_iff (n : Nat) : isPow2 n = true ↔ ∃ k, n = 2 ^ k :=
  isPow2Aux_iff n n le_rfl

theorem isPow2_pos (n : Nat) (h : isPow2 n = true) : 0 < n := by
  obtain ⟨k, rfl⟩ := (isPow2_iff n).mp h
  exact Nat.pos_pow_of_pos k (by omega)

theorem pow2_dvd_or_dvd (a b : Nat) (ha : isPow2 a = true) (hb : isPow2 b = true) :
    a ∣ b ∨ b ∣ a := by
  obtain ⟨i, rfl⟩ := (isPow2_iff a).mp ha
  obtain ⟨j, rfl⟩ := (isPow2_iff b).mp hb
  rcases Nat.le_total i j with h | h
  · exact Or.inl (pow_dvd_pow 2 h)
  · exact Or.inr (pow_dvd_pow 2 h)

theorem pow2_dvd_of_lt (a b : Nat) (ha : isPow2 a = true) (hb : isPow2 b = true)
    (hab : a < b) : a ∣ b := by
  rcases pow2_dvd_or_dvd a b ha hb with h | h
  · exact h
  · have := Nat.le_of_dvd (isPow2_pos a ha) h
    omega

theorem align_offset_lt (p a : Nat) (ha : 0 < a) : align_offset p a < a :=
  Nat.mod_lt _ ha

theorem align_offset_eq_zero_iff (p a : Nat) (ha : 0 < a) :
    align_offset p a = 0 ↔ p % a = 0 := by
  unfold align_offset
  rcases Nat.eq_zero_or_pos (p % a) with h | h
  · simp [h]
  · have h1 : p % a < a := Nat.mod_lt _ ha
    have h2 : (a - p % a) % a = a - p % a := Nat.mod_eq_of_lt (by omega)
    rw [h2]
    omega

theorem align_offset_add_mod (p a : Nat) (ha : 0 < a) :
    (p + align_offset p a) % a = 0 := by
  unfold align_offset
  rcases Nat.eq_zero_or_pos (p % a) with h | h
  · simp [h, Nat.add_mod, Nat.sub_zero, Nat.mod_self]
  · have h1 : p % a < a := Nat.mod_lt _ ha
    have h2 : (a - p % a) % a = a - p % a := Nat.mod_eq_of_lt (by omega)
    rw [h2]
    obtain ⟨q, hq⟩ : ∃ q, p = a * q + p % a := ⟨p / a, (Nat.div_add_mod p a).symm⟩
    have hmul : a * (q + 1) = a * q + a := by ring
    have : p + (a - p % a) = a * (q + 1) := by omega
    rw [this, Nat.mul_comm, Nat.mul_mod_left]

theorem align_offset_min (p a q : Nat) (ha : 0 < a) (hpq : p ≤ q) (hq : q % a = 0) :
    p + align_offset p a ≤ q := by
  by_contra hlt
  push_neg at hlt
  have h1 : align_offset p a < a := align_offset_lt p a ha
  have h2 : (p + align_offset p a) % a = 0 := align_offset_add_mod p a ha
  obtain ⟨kq, hkq⟩ : a ∣ q := Nat.dvd_of_mod_eq_zero hq
  obtain ⟨kp, hkp⟩ : a ∣ (p + align_offset p a) := Nat.dvd_of_mod_eq_zero h2
  have hklt : kq < kp := by
    by_contra hk
    push_neg at hk
    have := Nat.mul_le_mul_left a hk
    omega
  have h3 : a * (kq + 1) ≤ a * kp := Nat.mul_le_mul_left a hklt
  have h4 : a * (kq + 1) = a * kq + a := by ring
  omega

theorem dvd_align_offset (d p a : Nat) (hda : d ∣ a) (hdp : d ∣ p) :
    d ∣ align_offset p a := by
  unfold align_offset
  have h1 : d ∣ p % a := (Nat.dvd_mod_iff hda).mpr hdp
  have h2 : d ∣ a - p % a := Nat.dvd_sub' hda h1
  exact (Nat.dvd_mod_iff hda).mpr h2

/-- The managed region's header cells: an association list from header
addresses to the `SegmentMetadata` most recently written there.
`core::ptr::write` prepends; reads take the most recent entry. -/
abbrev Mem := List (Nat × SegmentMetadata)

/-- Read the header at address `b` (most recent write wins). -/
def mlookup : Mem → Nat → Option SegmentMetadata
  | [], _ => none
  | (a, v) :: t, b => if b = a then some v else mlookup t b

/-- `MemorySegmenter::write_metadata`: store a header at address `a`. -/
def mwrite (mem : Mem) (a : Nat) (v : SegmentMetadata) : Mem := (a, v) :: mem

@[simp] theorem mlookup_mwrite_same (mem : Mem) (a : Nat) (v : SegmentMetadata) :
    mlookup (mwrite mem a v) a = some v := by
  simp [mwrite, mlookup]

theorem mlookup_mwrite_ne (mem : Mem) (a b : Nat) (v : SegmentMetadata) (h : b ≠ a) :
    mlookup (mwrite mem a v) b = mlookup mem b := by
  simp [mwrite, mlookup, h]

/-- `pub struct MemorySegmenter { head, start, end_exclusive, num_nodes }`
together with the managed bytes it owns. -/
structure MemorySegmenter where
  head : Nat
  start : Nat
  end_exclusive : Nat
  num_nodes : Nat
  mem : Mem
deriving DecidableEq, Repr

/-- Outcome of an `unsafe` manager operation: `Ok(val)` with the updated
manager, `Err(())` with the manager as the method left it, or a panic
(`todo!()`, a failed `unwrap`/`expect`, `set_size` on a misaligned size,
`align_offset` on a non-power-of-two, or a read of memory that never held a
header — the last being undefined behaviour in the source, left outside the
model). -/
inductive SegOutcome (α : Type) where
  | ok (st : MemorySegmenter) (val : α)
  | err (st : MemorySegmenter)
  | panic
deriving DecidableEq, Repr

namespace MemorySegmenter

/-- `pub fn size(&self) -> usize` -/
def size (s : MemorySegmenter) : Nat := s.end_exclusive - s.start

/-- `pub fn overhead(&self) -> usize` -/
def overhead (s : MemorySegmenter) : Nat := s.num_nodes * SegmentMetadata.SIZE

/-- `pub unsafe fn new(start, end_exclusive) -> Self`: one free header at
`start` spanning the whole region. -/
def new (start end_exclusive : Nat) : MemorySegmenter :=
  { head := start, start := start, end_exclusive := end_exclusive, num_nodes := 1,
    mem := [(start, SegmentMetadata.new 0 (end_exclusive - start) false false)] }

-- Lines 142-152 of `create_used_segment`: repoint the old physical next's
-- `prev` to the trailing segment, then shrink the candidate and mark that a
-- next exists.  The source reads `segment_mut` for `next()` and `set_size`;
-- no write between line 96 and line 149 touches `segment`'s header, so that
-- alias still holds `seg0`.
def caseBFinish (s : MemorySegmenter) (segment : Nat) (seg0 : SegmentMetadata)
    (new_segment_bytes trailing_segment : Nat) (mem : Mem) (nodes : Nat) : SegOutcome Nat :=
  match SegmentMetadata.next segment seg0 with
  | some nn =>
    match mlookup mem nn with
    | none => .panic   -- `next.as_mut().unwrap()` (null or invalid next)
    | some nxt =>
      let memA := mwrite mem nn (nxt.set_prev trailing_segment)
      match seg0.set_size (new_segment_bytes - segment) with
      | none => .panic
      | some segR =>
        let memB := mwrite memA segment segR
        .ok { s with
              mem := mwrite memB segment (segR.set_next_exists true),
              num_nodes := nodes } new_segment_bytes
  | none =>
    match seg0.set_size (new_segment_bytes - segment) with
    | none => .panic
    | some segR =>
      let memB := mwrite mem segment segR
      .ok { s with
            mem := mwrite memB segment (segR.set_next_exists true),
            num_nodes := nodes } new_segment_bytes

/-- `pub unsafe fn create_used_segment(&mut self, segment, subsegment_size,
required_align)`, transcribed branch by branch from
`src/memory_segmenter/mod.rs` lines 40-153.  `segment_mut` reads go through
`mlookup`/local copies exactly where the source's `&mut` alias is read; all
`set_*` calls through raw pointers become `mwrite`s. -/
def create_used_segment (s : MemorySegmenter) (segment : Nat)
    (subsegment_size required_align : Nat) : SegOutcome Nat :=
  if segment = 0 then .panic
  else
    match mlookup s.mem segment with
    | none => .panic
    | some seg0 =>
      if seg0.in_use then .err s
      else if subsegment_size > seg0.size then .err s
      else if subsegment_size % SegmentMetadata.SIZE ≠ 0 then .err s
      else if ¬ isPow2 required_align then .panic
      else if align_offset (SegmentMetadata.alloc_start_ptr segment) required_align = 0 then
        -- Case A: the payload pointer is already aligned.
        let seg1 := seg0.set_in_use true
        let mem1 := mwrite s.mem segment seg1
        if seg1.size = subsegment_size then
          .ok { s with mem := mem1 } segment
        else
          let old_size := seg1.size
          let old_next_exists := seg1.next_exists
          match seg1.set_size subsegment_size with
          | none => .panic
          | some seg2 =>
            let mem2 := mwrite mem1 segment seg2
            let next_free_ptr := segment + seg2.size
            let next_free_size := old_size - subsegment_size
            let mem3 := mwrite mem2 next_free_ptr
              (SegmentMetadata.new segment next_free_size false old_next_exists)
            match mlookup mem3 segment with
            | none => .panic
            | some segA =>
              let mem4 := mwrite mem3 segment (segA.set_next_exists true)
              match mlookup mem4 next_free_ptr with
              | none => .panic
              | some nf =>
                let mem5 := mwrite mem4 next_free_ptr (nf.set_prev segment)
                match mlookup mem5 next_free_ptr with
                | none => .panic
                | some nf2 =>
                  match SegmentMetadata.next next_free_ptr nf2 with
                  | none =>
                    .ok { s with mem := mem5, num_nodes := s.num_nodes + 1 } segment
                  | some nn =>
                    -- `.and_then(|x| x.as_mut())`: a null next is skipped.
                    if nn = 0 then
                      .ok { s with mem := mem5, num_nodes := s.num_nodes + 1 } segment
                    else
                      match mlookup mem5 nn with
                      | none => .panic
                      | some nnm =>
                        .ok { s with
                              mem := mwrite mem5 nn (nnm.set_prev next_free_ptr),
                              num_nodes := s.num_nodes + 1 } segment
      else
        -- Case B: the payload needs extra alignment.
        let alloc_bytes0 := SegmentMetadata.alloc_start_ptr segment
        let alloc_bytes :=
          alloc_bytes0 + max (align_offset alloc_bytes0 required_align) SegmentMetadata.SIZE
        let new_segment_bytes := alloc_bytes - SegmentMetadata.SIZE
        if new_segment_bytes + subsegment_size > SegmentMetadata.end_exclusive segment seg0 then
          .err s
        else
          let mem1 := mwrite s.mem new_segment_bytes
            (SegmentMetadata.new segment subsegment_size true false)
          match mlookup mem1 new_segment_bytes with
          | none => .panic
          | some newSeg =>
            -- Does a trailing free segment need to be constructed?
            if SegmentMetadata.end_exclusive segment seg0 ≠
                SegmentMetadata.end_exclusive new_segment_bytes newSeg then
              let new_next_ptr := SegmentMetadata.end_exclusive new_segment_bytes newSeg
              let new_next_size := SegmentMetadata.end_exclusive segment seg0 - new_next_ptr
              let mem2 := mwrite mem1 new_next_ptr
                (SegmentMetadata.new new_segment_bytes new_next_size false false)
              match mlookup mem2 new_next_ptr with
              | none => .panic
              | some nn0 =>
                let mem3 := mwrite mem2 new_next_ptr (nn0.set_next_exists seg0.next_exists)
                match mlookup mem3 new_segment_bytes with
                | none => .panic
                | some ns1 =>
                  let mem4 := mwrite mem3 new_segment_bytes (ns1.set_next_exists true)
                  caseBFinish s segment seg0 new_segment_bytes new_next_ptr mem4
                    (s.num_nodes + 2)
            else
              let mem2 := mwrite mem1 new_segment_bytes (newSeg.set_next_exists seg0.next_exists)
              caseBFinish s segment seg0 new_segment_bytes new_segment_bytes mem2
                (s.num_nodes + 1)

/-- `pub unsafe fn delete_used_segment(&mut self, segment)`, transcribed from
`src/memory_segmenter/mod.rs` lines 155-192.  The non-first-segment case is
`todo!()` in the source and therefore panics. -/
def delete_used_segment (s : MemorySegmenter) (segment : Nat) : SegOutcome Nat :=
  if segment = 0 then .panic
  else
    match mlookup s.mem segment with
    | none => .panic
    | some seg0 =>
      if ¬ seg0.in_use then .err s
      else if seg0.prev ≠ 0 then .panic  -- `todo!()`: not the first segment
      else
        match SegmentMetadata.next segment seg0 with
        | some nn =>
          match mlookup s.mem nn with
          | none => .panic  -- `next.as_mut().unwrap()`
          | some nxt =>
            if ¬ nxt.in_use then
              -- Coalesce the next segment into this one.
              let seg1 := seg0.set_next_exists nxt.next_exists
              match seg1.set_size (seg1.size + nxt.size) with
              | none => .panic
              | some seg2 =>
                let mem1 := mwrite s.mem segment seg2
                let nodes := s.num_nodes - 1
                match SegmentMetadata.next segment seg2 with
                | some nn2 =>
                  match mlookup mem1 nn2 with
                  | none => .panic  -- `x.as_mut().unwrap()`
                  | some nxt2 =>
                    let mem2 := mwrite mem1 nn2 (nxt2.set_prev segment)
                    .ok { s with
                          mem := mwrite mem2 segment (seg2.set_in_use false),
                          num_nodes := nodes } segment
                | none =>
                  .ok { s with
                        mem := mwrite mem1 segment (seg2.set_in_use false),
                        num_nodes := nodes } segment
            else
              -- No coalescing can be done.
              .ok { s with mem := mwrite s.mem segment (seg0.set_in_use false) } segment
        | none =>
          -- This is the only segment that exists; no coalescing needed.
          .ok { s with mem := mwrite s.mem segment (seg0.set_in_use false) } segment

end MemorySegmenter

/-- `usize::next_multiple_of` (with a nonzero modulus, here always
`SegmentMetadata::SIZE`). -/
def next_multiple_of (n k : Nat) : Nat := (n + k - 1) / k * k

/-- `MemorySegmenterIter`: the physically ordered header sequence starting
at `a`, following `next()` until a block with `next_exists == false`.  The
source iterator is demand-driven; on any state on which it terminates it
yields exactly this list, so a fuel bound (`num_nodes` at the call site,
which the well-formedness invariant makes exact) is supplied explicitly and
exhaustion maps to `none` (a diverging or wild iteration, outside the
model). -/
def segChain (mem : Mem) : Nat → Nat → Option (List (Nat × SegmentMetadata))
  | _, 0 => none
  | a, fuel + 1 =>
    match mlookup mem a with
    | none => none
    | some m =>
      if m.next_exists then
        match segChain mem (a + m.size) fuel with
        | none => none
        | some l => some ((a, m) :: l)
      else some [(a, m)]

/-- Modelled from the spec: `MemorySegmenter::calculate_alloc_ptr_with_required_align`
is called by `allocate` (src/allocators/linked_list_allocator.rs line 46)
but its definition is not among the provided sources.  Per the spec (§4.2.2
fit policy, §7 taxonomy 3) it is the recoverable per-candidate feasibility
check used during the scan: the block must be free, and the Case-B
alignment computation — when the payload pointer is not already aligned —
must leave the used block inside the candidate
(`p - H + request_size ≤ candidate.end_exclusive` with `p - H` computed as
in `create_used_segment`). -/
def calculate_alloc_ptr_with_required_align (a : Nat) (m : SegmentMetadata)
    (subsegment_size required_align : Nat) : Bool :=
  !m.in_use &&
    (align_offset (SegmentMetadata.alloc_start_ptr a) required_align == 0 ||
      decide (SegmentMetadata.alloc_start_ptr a +
          max (align_offset (SegmentMetadata.alloc_start_ptr a) required_align)
            SegmentMetadata.SIZE -
          SegmentMetadata.SIZE + subsegment_size ≤ SegmentMetadata.end_exclusive a m))

namespace LinkedListAlloc

/-- The body of the `for entry in internal.segmenter_list.iter()` loop of
`allocate`: keep overwriting `valid_segment_ptr` with every entry that
passes both candidate tests. -/
def scanStep (real_layout_size subsegment_size real_align : Nat)
    (acc : Option Nat) (e : Nat × SegmentMetadata) : Option Nat :=
  if e.2.size_allocable < real_layout_size then acc
  else if ¬ calculate_alloc_ptr_with_required_align e.1 e.2 subsegment_size real_align then acc
  else some e.1

/-- `Allocator::allocate` for `LinkedListAlloc`
(src/allocators/linked_list_allocator.rs lines 30-77), with the mutex
erased.  Returns the payload pointer and the returned slice's length. -/
def allocate (s : MemorySegmenter) (size align : Nat) : SegOutcome (Nat × Nat) :=
  let real_align := max align SegmentMetadata.SIZE
  let real_layout_size := next_multiple_of size SegmentMetadata.SIZE
  let subsegment_size := real_layout_size + SegmentMetadata.SIZE
  match segChain s.mem s.head s.num_nodes with
  | none => .panic
  | some entries =>
    match entries.foldl (scanStep real_layout_size subsegment_size real_align) none with
    | some valid_segment_ptr =>
      match s.create_used_segment valid_segment_ptr subsegment_size real_align with
      | .ok st new_segment =>
        .ok st (SegmentMetadata.alloc_start_ptr new_segment, real_layout_size)
      | .err st => .err st
      | .panic => .panic
    | none => .err s

/-- `Allocator::deallocate` for `LinkedListAlloc`
(src/allocators/linked_list_allocator.rs lines 79-88): the header sits one
`SegmentMetadata` before the payload pointer; a failing
`delete_used_segment` hits `.expect("Failed to free data!")` and panics. -/
def deallocate (s : MemorySegmenter) (ptr : Nat) : SegOutcome Unit :=
  let segment_start_ptr := ptr - SegmentMetadata.SIZE
  match s.delete_used_segment segment_start_ptr with
  | .ok st _ => .ok st ()
  | .err _ => .panic
  | .panic => .panic

/-- The payload pointer of a successful allocation, if any. -/
def allocPtr : SegOutcome (Nat × Nat) → Option Nat
  | .ok _ (p, _) => some p
  | _ => none

/-- `p = allocate(s, a); deallocate(p, _)` — the round-trip of the
allocate/free law.  When the allocation fails the round trip is the failed
allocation itself. -/
def roundTrip (s : MemorySegmenter) (size align : Nat) : SegOutcome Unit :=
  match allocate s size align with
  | .ok st (p, _) => deallocate st p
  | .err st => .err st
  | .panic => .panic

end LinkedListAlloc

/-- Total size of a list of blocks. -/
def sumSizes (l : List (Nat × SegmentMetadata)) : Nat := (l.map (fun e => e.2.size)).sum

/-- Spec §3.3(4): a block size is a positive multiple of `H = 16`. -/
def sizeLegal (m : SegmentMetadata) : Bool := m.size % 16 == 0 && m.size != 0

/-- An initial run of the block chain: starting at address `a` whose block's
`prev` must be `p`, every listed block is present in memory, chained
contiguously with `next_exists` set, legally sized — and the run ends
expecting a continuation block at address `t.1` whose `prev` must be
`t.2`. -/
def blocksSeg (mem : Mem) : Nat → Nat → List (Nat × SegmentMetadata) → Nat × Nat → Bool
  | a, p, [], t => a == t.1 && p == t.2
  | a, p, (c, m) :: l, t =>
    a == c && decide (mlookup mem a = some m) && (m.prev == p) && m.next_exists &&
      sizeLegal m && blocksSeg mem (a + m.size) a l t

/-- The complete block chain from address `a` (whose `prev` must be `p`):
spec §3.3 linkage — contiguous in address order, `prev` pointing at the
physical predecessor, `next_exists` everywhere but on the last block, all
sizes legal. -/
def blocksOk (mem : Mem) : Nat → Nat → List (Nat × SegmentMetadata) → Bool
  | _, _, [] => false
  | a, p, [(c, m)] =>
    a == c && decide (mlookup mem a = some m) && (m.prev == p) && !m.next_exists && sizeLegal m
  | a, p, (c, m) :: e :: l =>
    a == c && decide (mlookup mem a = some m) && (m.prev == p) && m.next_exists &&
      sizeLegal m && blocksOk mem (a + m.size) a (e :: l)

/-- The manager invariants of spec §3.3 / §8: the head is the region start
(nonzero, header-aligned), one well-linked chain covers the region exactly
(partition), and the node count is the chain length. -/
def Wf (s : MemorySegmenter) : Prop :=
  s.head = s.start ∧ s.start % 16 = 0 ∧ s.start ≠ 0 ∧
    ∃ l, blocksOk s.mem s.start 0 l = true ∧
      s.start + sumSizes l = s.end_exclusive ∧ l.length = s.num_nodes

/-- `c` is the address of one of the manager's blocks (spec §4.2.2:
"`candidate`: a free block within this manager" — here just membership in
the chain; freedom is checked by the operation itself). -/
def blockOf (s : MemorySegmenter) (c : Nat) : Prop :=
  ∃ l m, blocksOk s.mem s.start 0 l = true ∧ (c, m) ∈ l

@[simp] theorem sumSizes_nil : sumSizes [] = 0 := rfl

@[simp] theorem sumSizes_cons (c : Nat) (m : SegmentMetadata) (l : List (Nat × SegmentMetadata)) :
    sumSizes ((c, m) :: l) = m.size + sumSizes l := by
  simp [sumSizes]

theorem sumSizes_append (l₁ l₂ : List (Nat × SegmentMetadata)) :
    sumSizes (l₁ ++ l₂) = sumSizes l₁ + sumSizes l₂ := by
  induction l₁ with
  | nil => simp
  | cons e l ih =>
    obtain ⟨c, m⟩ := e
    rw [List.cons_append, sumSizes_cons, sumSizes_cons, ih]
    omega

theorem blocksSeg_nil_iff (mem : Mem) (a p : Nat) (t : Nat × Nat) :
    blocksSeg mem a p [] t = true ↔ a = t.1 ∧ p = t.2 := by
  simp [blocksSeg]

theorem blocksSeg_cons_iff (mem : Mem) (a p c : Nat) (m : SegmentMetadata)
    (l : List (Nat × SegmentMetadata)) (t : Nat × Nat) :
    blocksSeg mem a p ((c, m) :: l) t = true ↔
      a = c ∧ mlookup mem a = some m ∧ m.prev = p ∧ m.next_exists = true ∧
        sizeLegal m = true ∧ blocksSeg mem (a + m.size) a l t = true := by
  simp [blocksSeg, Bool.and_eq_true, and_assoc]

theorem blocksOk_singleton_iff (mem : Mem) (a p c : Nat) (m : SegmentMetadata) :
    blocksOk mem a p [(c, m)] = true ↔
      a = c ∧ mlookup mem a = some m ∧ m.prev = p ∧ m.next_exists = false ∧
        sizeLegal m = true := by
  simp [blocksOk, Bool.and_eq_true, and_assoc]

theorem blocksOk_cons₂_iff (mem : Mem) (a p c : Nat) (m : SegmentMetadata)
    (e : Nat × SegmentMetadata) (l : List (Nat × SegmentMetadata)) :
    blocksOk mem a p ((c, m) :: e :: l) = true ↔
      a = c ∧ mlookup mem a = some m ∧ m.prev = p ∧ m.next_exists = true ∧
        sizeLegal m = true ∧ blocksOk mem (a + m.size) a (e :: l) = true := by
  simp [blocksOk, Bool.and_eq_true, and_assoc]

theorem blocksOk_ne_nil (mem : Mem) (a p : Nat) (l : List (Nat × SegmentMetadata))
    (h : blocksOk mem a p l = true) : l ≠ [] := by
  rintro rfl
  simp [blocksOk] at h

theorem blocksOk_head (mem : Mem) (a p : Nat) (l : List (Nat × SegmentMetadata))
    (h : blocksOk mem a p l = true) :
    ∃ m l', l = (a, m) :: l' ∧ mlookup mem a = some m ∧ m.prev = p := by
  match l with
  | [] => exact absurd rfl (blocksOk_ne_nil mem a p [] h)
  | [(c, m)] =>
    rw [blocksOk_singleton_iff] at h
    exact ⟨m, [], by rw [h.1], h.2.1, h.2.2.1⟩
  | (c, m) :: e :: l' =>
    rw [blocksOk_cons₂_iff] at h
    exact ⟨m, e :: l', by rw [h.1], h.2.1, h.2.2.1⟩

theorem blocksSeg_append_iff (mem : Mem) (l₁ : List (Nat × SegmentMetadata)) :
    ∀ (a p : Nat) (l₂ : List (Nat × SegmentMetadata)) (t : Nat × Nat),
      blocksSeg mem a p (l₁ ++ l₂) t = true ↔
        ∃ b q, blocksSeg mem a p l₁ (b, q) = true ∧ blocksSeg mem b q l₂ t = true := by
  induction l₁ with
  | nil =>
    intro a p l₂ t
    constructor
    · intro h
      exact ⟨a, p, by simp [blocksSeg_nil_iff], h⟩
    · rintro ⟨b, q, hseg, h⟩
      rw [blocksSeg_nil_iff] at hseg
      obtain ⟨rfl, rfl⟩ := hseg
      exact h
  | cons e l₁ ih =>
    intro a p l₂ t
    obtain ⟨c, m⟩ := e
    rw [List.cons_append, blocksSeg_cons_iff]
    constructor
    · rintro ⟨rfl, hl, hp, hne, hleg, htail⟩
      obtain ⟨b, q, h1, h2⟩ := (ih _ _ _ _).mp htail
      exact ⟨b, q, (blocksSeg_cons_iff _ _ _ _ _ _ _).mpr ⟨rfl, hl, hp, hne, hleg, h1⟩, h2⟩
    · rintro ⟨b, q, h1, h2⟩
      rw [blocksSeg_cons_iff] at h1
      obtain ⟨rfl, hl, hp, hne, hleg, h1⟩ := h1
      exact ⟨rfl, hl, hp, hne, hleg, (ih _ _ _ _).mpr ⟨b, q, h1, h2⟩⟩

theorem blocksOk_append_iff (mem : Mem) (l₁ : List (Nat × SegmentMetadata)) :
    ∀ (a p : Nat) (l₂ : List (Nat × SegmentMetadata)), l₂ ≠ [] →
      (blocksOk mem a p (l₁ ++ l₂) = true ↔
        ∃ b q, blocksSeg mem a p l₁ (b, q) = true ∧ blocksOk mem b q l₂ = true) := by
  induction l₁ with
  | nil =>
    intro a p l₂ _
    constructor
    · intro h
      exact ⟨a, p, by simp [blocksSeg_nil_iff], h⟩
    · rintro ⟨b, q, hseg, h⟩
      rw [blocksSeg_nil_iff] at hseg
      obtain ⟨rfl, rfl⟩ := hseg
      exact h
  | cons e l₁ ih =>
    intro a p l₂ hne2
    obtain ⟨c, m⟩ := e
    obtain ⟨e', t', het⟩ : ∃ e' t', l₁ ++ l₂ = e' :: t' := by
      cases hl : l₁ ++ l₂ with
      | nil => exact absurd (List.append_eq_nil.mp hl).2 hne2
      | cons x y => exact ⟨x, y, rfl⟩
    rw [List.cons_append, het, blocksOk_cons₂_iff, ← het]
    constructor
    · rintro ⟨rfl, hl, hp, hne, hleg, htail⟩
      obtain ⟨b, q, h1, h2⟩ := (ih _ _ _ hne2).mp htail
      exact ⟨b, q, (blocksSeg_cons_iff _ _ _ _ _ _ _).mpr ⟨rfl, hl, hp, hne, hleg, h1⟩, h2⟩
    · rintro ⟨b, q, h1, h2⟩
      rw [blocksSeg_cons_iff] at h1
      obtain ⟨rfl, hl, hp, hne, hleg, h1⟩ := h1
      exact ⟨rfl, hl, hp, hne, hleg, (ih _ _ _ hne2).mpr ⟨b, q, h1, h2⟩⟩

theorem blocksSeg_mwrite_iff (mem : Mem) (w : Nat) (v : SegmentMetadata)
    (l : List (Nat × SegmentMetadata)) :
    ∀ (a p : Nat) (t : Nat × Nat), (∀ e ∈ l, e.1 ≠ w) →
      (blocksSeg (mwrite mem w v) a p l t = true ↔ blocksSeg mem a p l t = true) := by
  induction l with
  | nil => intro a p t _; rw [blocksSeg_nil_iff, blocksSeg_nil_iff]
  | cons e l ih =>
    intro a p t hw
    obtain ⟨c, m⟩ := e
    have hcw : c ≠ w := hw (c, m) (List.mem_cons_self _ _)
    rw [blocksSeg_cons_iff, blocksSeg_cons_iff]
    constructor
    · rintro ⟨rfl, hl, hp, hne, hleg, htail⟩
      rw [mlookup_mwrite_ne mem w _ v hcw] at hl
      exact ⟨rfl, hl, hp, hne, hleg,
        (ih _ _ _ (fun e he => hw e (List.mem_cons_of_mem _ he))).mp htail⟩
    · rintro ⟨rfl, hl, hp, hne, hleg, htail⟩
      rw [← mlookup_mwrite_ne mem w _ v hcw] at hl
      exact ⟨rfl, hl, hp, hne, hleg,
        (ih _ _ _ (fun e he => hw e (List.mem_cons_of_mem _ he))).mpr htail⟩

theorem blocksOk_mwrite_iff (mem : Mem) (w : Nat) (v : SegmentMetadata)
    (l : List (Nat × SegmentMetadata)) :
    ∀ (a p : Nat), (∀ e ∈ l, e.1 ≠ w) →
      (blocksOk (mwrite mem w v) a p l = true ↔ blocksOk mem a p l = true) := by
  induction l with
  | nil => intro a p _; constructor <;> (intro h; simp [blocksOk] at h)
  | cons e l ih =>
    intro a p hw
    obtain ⟨c, m⟩ := e
    have hcw : c ≠ w := hw (c, m) (List.mem_cons_self _ _)
    cases l with
    | nil =>
      rw [blocksOk_singleton_iff, blocksOk_singleton_iff]
      constructor
      · rintro ⟨rfl, hl, hp, hne, hleg⟩
        rw [mlookup_mwrite_ne mem w _ v hcw] at hl
        exact ⟨rfl, hl, hp, hne, hleg⟩
      · rintro ⟨rfl, hl, hp, hne, hleg⟩
        rw [← mlookup_mwrite_ne mem w _ v hcw] at hl
        exact ⟨rfl, hl, hp, hne, hleg⟩
    | cons e' l' =>
      rw [blocksOk_cons₂_iff, blocksOk_cons₂_iff]
      constructor
      · rintro ⟨rfl, hl, hp, hne, hleg, htail⟩
        rw [mlookup_mwrite_ne mem w _ v hcw] at hl
        exact ⟨rfl, hl, hp, hne, hleg,
          (ih _ _ (fun e he => hw e (List.mem_cons_of_mem _ he))).mp htail⟩
      · rintro ⟨rfl, hl, hp, hne, hleg, htail⟩
        rw [← mlookup_mwrite_ne mem w _ v hcw] at hl
        exact ⟨rfl, hl, hp, hne, hleg,
          (ih _ _ (fun e he => hw e (List.mem_cons_of_mem _ he))).mpr htail⟩

theorem sizeLegal_facts (m : SegmentMetadata) (h : sizeLegal m = true) :
    m.size % 16 = 0 ∧ m.size ≠ 0 := by
  simpa [sizeLegal] using h

theorem blocksSeg_elem (mem : Mem) (l : List (Nat × SegmentMetadata)) :
    ∀ (a p b q : Nat), blocksSeg mem a p l (b, q) = true →
      a + sumSizes l = b ∧
        ∀ e ∈ l, mlookup mem e.1 = some e.2 ∧ sizeLegal e.2 = true ∧
          a ≤ e.1 ∧ e.1 + e.2.size ≤ b := by
  induction l with
  | nil =>
    intro a p b q h
    rw [blocksSeg_nil_iff] at h
    simp [h.1]
  | cons x l ih =>
    intro a p b q h
    obtain ⟨c, m⟩ := x
    rw [blocksSeg_cons_iff] at h
    obtain ⟨rfl, hl, hp, hne, hleg, htail⟩ := h
    obtain ⟨hsum, helem⟩ := ih _ _ _ _ htail
    obtain ⟨hm16, hm0⟩ := sizeLegal_facts m hleg
    refine ⟨by rw [sumSizes_cons]; omega, ?_⟩
    intro e he
    obtain ⟨x, mx⟩ := e
    dsimp only
    rw [List.mem_cons] at he
    rcases he with heq | he
    · simp only [Prod.mk.injEq] at heq
      obtain ⟨rfl, rfl⟩ := heq
      exact ⟨hl, hleg, le_rfl, by omega⟩
    · obtain ⟨h1, h2, h3, h4⟩ := helem _ he
      exact ⟨h1, h2, by omega, h4⟩

theorem blocksOk_elem (mem : Mem) (l : List (Nat × SegmentMetadata)) :
    ∀ (a p : Nat), blocksOk mem a p l = true →
      ∀ e ∈ l, mlookup mem e.1 = some e.2 ∧ sizeLegal e.2 = true ∧
        a ≤ e.1 ∧ e.1 + e.2.size ≤ a + sumSizes l := by
  induction l with
  | nil => intro a p h; simp [blocksOk] at h
  | cons x l ih =>
    intro a p h
    obtain ⟨c, m⟩ := x
    have hstep : a = c ∧ mlookup mem a = some m ∧ sizeLegal m = true ∧
        (l = [] ∨ blocksOk mem (a + m.size) a l = true) := by
      cases l with
      | nil =>
        rw [blocksOk_singleton_iff] at h
        exact ⟨h.1, h.2.1, h.2.2.2.2, Or.inl rfl⟩
      | cons y t =>
        rw [blocksOk_cons₂_iff] at h
        exact ⟨h.1, h.2.1, h.2.2.2.2.1, Or.inr h.2.2.2.2.2⟩
    obtain ⟨rfl, hl, hleg, htail⟩ := hstep
    obtain ⟨hm16, hm0⟩ := sizeLegal_facts m hleg
    intro e he
    obtain ⟨x, mx⟩ := e
    dsimp only
    rw [List.mem_cons] at he
    rcases he with heq | he
    · simp only [Prod.mk.injEq] at heq
      obtain ⟨rfl, rfl⟩ := heq
      refine ⟨hl, hleg, le_rfl, ?_⟩
      rw [sumSizes_cons]
      omega
    · rcases htail with rfl | htail
      · simp at he
      · obtain ⟨h1, h2, h3, h4⟩ := ih _ _ htail _ he
        dsimp only at h3 h4
        rw [sumSizes_cons]
        exact ⟨h1, h2, by omega, by omega⟩

theorem blocksOk_addr_mod (mem : Mem) (l : List (Nat × SegmentMetadata)) :
    ∀ (a p : Nat), blocksOk mem a p l = true → a % 16 = 0 →
      ∀ e ∈ l, e.1 % 16 = 0 := by
  induction l with
  | nil => intro a p h _; simp [blocksOk] at h
  | cons x l ih =>
    intro a p h ha
    obtain ⟨c, m⟩ := x
    have hstep : a = c ∧ sizeLegal m = true ∧
        (l = [] ∨ blocksOk mem (a + m.size) a l = true) := by
      cases l with
      | nil =>
        rw [blocksOk_singleton_iff] at h
        exact ⟨h.1, h.2.2.2.2, Or.inl rfl⟩
      | cons y t =>
        rw [blocksOk_cons₂_iff] at h
        exact ⟨h.1, h.2.2.2.2.1, Or.inr h.2.2.2.2.2⟩
    obtain ⟨rfl, hleg, htail⟩ := hstep
    obtain ⟨hm16, hm0⟩ := sizeLegal_facts m hleg
    intro e he
    obtain ⟨x, mx⟩ := e
    dsimp only
    rw [List.mem_cons] at he
    rcases he with heq | he
    · simp only [Prod.mk.injEq] at heq
      obtain ⟨rfl, rfl⟩ := heq
      exact ha
    · rcases htail with rfl | htail
      · simp at he
      · exact ih _ _ htail (by omega) _ he

theorem blocksSeg_last (mem : Mem) (l : List (Nat × SegmentMetadata)) :
    ∀ (a p b q : Nat), blocksSeg mem a p l (b, q) = true →
      (l = [] ∧ a = b ∧ p = q) ∨ (∃ m, (q, m) ∈ l ∧ q + m.size = b) := by
  induction l with
  | nil =>
    intro a p b q h
    rw [blocksSeg_nil_iff] at h
    exact Or.inl ⟨rfl, h.1, h.2⟩
  | cons x l ih =>
    intro a p b q h
    obtain ⟨c, m⟩ := x
    rw [blocksSeg_cons_iff] at h
    obtain ⟨rfl, hl, hp, hne, hleg, htail⟩ := h
    rcases ih _ _ _ _ htail with ⟨rfl, hab, hq⟩ | ⟨m', hm', hsz⟩
    · subst hq
      exact Or.inr ⟨m, List.mem_cons_self _ _, hab⟩
    · exact Or.inr ⟨m', List.mem_cons_of_mem _ hm', hsz⟩

theorem blocksOk_unique (mem : Mem) (l : List (Nat × SegmentMetadata)) :
    ∀ (a p : Nat) (l' : List (Nat × SegmentMetadata)),
      blocksOk mem a p l = true → blocksOk mem a p l' = true → l = l' := by
  induction l with
  | nil => intro a p l' h _; simp [blocksOk] at h
  | cons x l ih =>
    intro a p l' h h'
    obtain ⟨c, m⟩ := x
    obtain ⟨m', t', rfl, hl', hp'⟩ := blocksOk_head mem a p l' h'
    have hac : a = c ∧ mlookup mem a = some m := by
      cases l with
      | nil => rw [blocksOk_singleton_iff] at h; exact ⟨h.1, h.2.1⟩
      | cons y t => rw [blocksOk_cons₂_iff] at h; exact ⟨h.1, h.2.1⟩
    obtain ⟨rfl, hl⟩ := hac
    have hmm : m' = m := by
      rw [hl] at hl'
      exact (Option.some_injective _ hl').symm
    subst hmm
    cases l with
    | nil =>
      rw [blocksOk_singleton_iff] at h
      cases t' with
      | nil => rfl
      | cons y' t'' =>
        rw [blocksOk_cons₂_iff] at h'
        rw [h.2.2.2.1] at h'
        exact absurd h'.2.2.2.1 (by simp)
    | cons y t =>
      rw [blocksOk_cons₂_iff] at h
      cases t' with
      | nil =>
        rw [blocksOk_singleton_iff] at h'
        rw [h.2.2.2.1] at h'
        exact absurd h'.2.2.2.1 (by simp)
      | cons y' t'' =>
        rw [blocksOk_cons₂_iff] at h'
        rw [ih _ _ _ h.2.2.2.2.2 h'.2.2.2.2.2]

theorem blocksOk_segChain (mem : Mem) (l : List (Nat × SegmentMetadata)) :
    ∀ (a p fuel : Nat), blocksOk mem a p l = true → l.length ≤ fuel →
      segChain mem a fuel = some l := by
  induction l with
  | nil => intro a p fuel h _; simp [blocksOk] at h
  | cons x l ih =>
    intro a p fuel h hf
    obtain ⟨fuel', rfl⟩ : ∃ f', fuel = f' + 1 := by
      cases fuel with
      | zero => simp at hf
      | succ f' => exact ⟨f', rfl⟩
    obtain ⟨c, m⟩ := x
    cases l with
    | nil =>
      rw [blocksOk_singleton_iff] at h
      obtain ⟨rfl, hl, hp, hne, hleg⟩ := h
      simp [segChain, hl, hne]
    | cons e' l' =>
      rw [blocksOk_cons₂_iff] at h
      obtain ⟨rfl, hl, hp, hne, hleg, htail⟩ := h
      have hrec := ih _ _ fuel' htail (by simp at hf ⊢; omega)
      simp [segChain, hl, hne, hrec]

theorem blocksOk_mem_decomp (mem : Mem) (a p c : Nat) (m : SegmentMetadata)
    (l : List (Nat × SegmentMetadata)) (h : blocksOk mem a p l = true)
    (hmem : (c, m) ∈ l) :
    ∃ l₁ l₂ q, l = l₁ ++ (c, m) :: l₂ ∧ blocksSeg mem a p l₁ (c, q) = true ∧
      blocksOk mem c q ((c, m) :: l₂) = true := by
  obtain ⟨l₁, l₂, rfl⟩ := List.append_of_mem hmem
  obtain ⟨b, q, h1, h2⟩ := (blocksOk_append_iff mem l₁ a p _ (by simp)).mp h
  have hbc : b = c := by
    cases l₂ with
    | nil => exact ((blocksOk_singleton_iff mem b q c m).mp h2).1
    | cons y t => exact ((blocksOk_cons₂_iff mem b q c m y t).mp h2).1
  subst hbc
  exact ⟨l₁, l₂, q, rfl, h1, h2⟩

/-- C9: `SegmentMetadata::set_size(s)` panics if and only if the low 3 bits
of `s` are nonzero; when `s` is a multiple of 8, the call leaves the flag
bits in positions 0..3 (`in_use`, `next_exists`) unchanged and a subsequent
`size()` returns exactly `s`. -/
theorem c9_set_size_panic_iff_and_flags (m : SegmentMetadata) (s : Nat) :
    (m.set_size s = none ↔ s % 8 ≠ 0) ∧
      ∀ m', m.set_size s = some m' →
        m'.size_word % 8 = m.size_word % 8 ∧ m'.in_use = m.in_use ∧
          m'.next_exists = m.next_exists ∧ m'.size = s := by
  refine ⟨SegmentMetadata.set_size_eq_none_iff m s, ?_⟩
  intro m' h
  have h8 : s % 8 = 0 := by
    by_contra hc
    have hnone : m.set_size s = none := (SegmentMetadata.set_size_eq_none_iff m s).mpr hc
    rw [h] at hnone
    exact Option.noConfusion hnone
  rw [SegmentMetadata.set_size_of_mod m s h8] at h
  injection h with h'
  subst h'
  refine ⟨?_, ?_, ?_, ?_⟩
  · show (s / 8 * 8 + m.size_word % 8) % 8 = m.size_word % 8
    omega
  · simp only [SegmentMetadata.in_use]
    congr 1
    show (s / 8 * 8 + m.size_word % 8) % 2 = m.size_word % 2
    omega
  · simp only [SegmentMetadata.next_exists]
    congr 1
    show (s / 8 * 8 + m.size_word % 8) / 2 % 2 = m.size_word / 2 % 2
    omega
  · show (s / 8 * 8 + m.size_word % 8) / 8 * 8 = s
    omega

/-- Witness for C9 at a concrete header and size. -/
theorem c9_set_size_witness :
    (⟨0, 37⟩ : SegmentMetadata).set_size 48 = some ⟨0, 53⟩ ∧
      ((53 : Nat) % 8 = (37 : Nat) % 8 ∧
        (⟨0, 53⟩ : SegmentMetadata).in_use = (⟨0, 37⟩ : SegmentMetadata).in_use ∧
        (⟨0, 53⟩ : SegmentMetadata).next_exists = (⟨0, 37⟩ : SegmentMetadata).next_exists ∧
        (⟨0, 53⟩ : SegmentMetadata).size = 48) :=
  ⟨by decide, (c9_set_size_panic_iff_and_flags ⟨0, 37⟩ 48).2 ⟨0, 53⟩ (by decide)⟩

/-- C10: `SegmentMetadata::new(prev, size, in_use, next_exists)` performs no
multiple-of-8 validation and never panics (it is total): it stores the size
word directly, overwrites bits 0 and 1 with the flags, so `size()` reads
back the argument with its low 3 bits cleared — exactly the argument when it
is a multiple of 8 — and `prev()`, `in_use()`, `next_exists()` read back the
constructor's arguments. -/
theorem c10_new_reads_back (p s : Nat) (iu ne : Bool) :
    (SegmentMetadata.new p s iu ne).prev = p ∧
      (SegmentMetadata.new p s iu ne).in_use = iu ∧
      (SegmentMetadata.new p s iu ne).next_exists = ne ∧
      (SegmentMetadata.new p s iu ne).size = s / 8 * 8 ∧
      (s % 8 = 0 → (SegmentMetadata.new p s iu ne).size = s) :=
  ⟨rfl, SegmentMetadata.new_in_use p s iu ne, SegmentMetadata.new_next_exists p s iu ne,
    SegmentMetadata.new_size p s iu ne, fun h => SegmentMetadata.new_size_of_mod p s iu ne h⟩

/-- Witness for C10: a misaligned size 44 reads back as 40 with its low bits
cleared, an aligned size 48 reads back exactly, and flags survive. -/
theorem c10_new_witness :
    (SegmentMetadata.new 5 44 true false).size = 40 ∧
      (SegmentMetadata.new 5 48 true false).size = 48 ∧
      (SegmentMetadata.new 5 44 true false).in_use = true := by
  refine ⟨?_, ?_, ?_⟩
  · have h := (c10_new_reads_back 5 44 true false).2.2.2.1
    simpa using h
  · exact (c10_new_reads_back 5 48 true false).2.2.2.2 (by decide)
  · exact (c10_new_reads_back 5 44 true false).2.1

/-- C8: freeing a block that is not in use is rejected:
`delete_used_segment` returns `Err` and leaves the manager unchanged, and
the allocator-level `deallocate` turns that failure into a panic
(`.expect("Failed to free data!")`) rather than returning. -/
theorem c8_free_not_in_use_rejected (s : MemorySegmenter) (b : Nat) (m : SegmentMetadata)
    (hb : b ≠ 0) (hl : mlookup s.mem b = some m) (hu : m.in_use = false) :
    s.delete_used_segment b = .err s ∧
      LinkedListAlloc.deallocate s (b + SegmentMetadata.SIZE) = .panic := by
  have hdel : s.delete_used_segment b = .err s := by
    unfold MemorySegmenter.delete_used_segment
    rw [if_neg hb]
    split
    · next hnone => rw [hl] at hnone; exact Option.noConfusion hnone
    · next seg0 hsome =>
      rw [hl] at hsome
      injection hsome with hs
      subst hs
      rw [if_pos (by simp [hu])]
  refine ⟨hdel, ?_⟩
  have harith : b + SegmentMetadata.SIZE - SegmentMetadata.SIZE = b := by omega
  unfold LinkedListAlloc.deallocate
  rw [harith]
  simp only [hdel]

/-- Witness for C8: a fresh single-block manager whose block is free. -/
theorem c8_witness :
    MemorySegmenter.delete_used_segment ⟨16, 16, 48, 1, [(16, ⟨0, 32⟩)]⟩ 16 =
        .err ⟨16, 16, 48, 1, [(16, ⟨0, 32⟩)]⟩ ∧
      LinkedListAlloc.deallocate ⟨16, 16, 48, 1, [(16, ⟨0, 32⟩)]⟩ (16 + SegmentMetadata.SIZE) =
        .panic :=
  c8_free_not_in_use_rejected ⟨16, 16, 48, 1, [(16, ⟨0, 32⟩)]⟩ 16 ⟨0, 32⟩ (by decide)
    (by decide) (by decide)

-- `caseBFinish` always returns `Ok` or a panic, never `Err`.
theorem caseBFinish_ne_err (s : MemorySegmenter) (segment : Nat) (seg0 : SegmentMetadata)
    (nsb tr : Nat) (mem : Mem) (nodes : Nat) (st' : MemorySegmenter) :
    MemorySegmenter.caseBFinish s segment seg0 nsb tr mem nodes ≠ .err st' := by
  unfold MemorySegmenter.caseBFinish
  intro h
  repeat' split at h
  all_goals simp at h

-- When all four rejection conditions of `create_used_segment` fail, the
-- call cannot return `Err`.
theorem create_not_err (s : MemorySegmenter) (segment req al : Nat) (m : SegmentMetadata)
    (hb : segment ≠ 0) (hl : mlookup s.mem segment = some m) (hp2 : isPow2 al = true)
    (h1 : m.in_use = false) (h2 : req ≤ m.size) (h3 : req % SegmentMetadata.SIZE = 0)
    (h4 : align_offset (SegmentMetadata.alloc_start_ptr segment) al = 0 ∨
      SegmentMetadata.alloc_start_ptr segment +
          max (align_offset (SegmentMetadata.alloc_start_ptr segment) al)
            SegmentMetadata.SIZE - SegmentMetadata.SIZE + req ≤
        SegmentMetadata.end_exclusive segment m) :
    ∀ st', s.create_used_segment segment req al ≠ .err st' := by
  intro st' h
  simp only [MemorySegmenter.create_used_segment, if_neg hb, hl] at h
  rw [if_neg (by simp [h1])] at h
  rw [if_neg (by omega)] at h
  rw [if_neg (by simp [h3])] at h
  rw [if_neg (by simp [hp2])] at h
  by_cases hoff : align_offset (SegmentMetadata.alloc_start_ptr segment) al = 0
  · rw [if_pos hoff] at h
    repeat' split at h
    all_goals simp at h
  · rw [if_neg hoff] at h
    have hfit : ¬ (SegmentMetadata.alloc_start_ptr segment +
        max (align_offset (SegmentMetadata.alloc_start_ptr segment) al)
          SegmentMetadata.SIZE - SegmentMetadata.SIZE + req >
        SegmentMetadata.end_exclusive segment m) := by
      rcases h4 with h4 | h4
      · exact absurd h4 hoff
      · omega
    rw [if_neg hfit] at h
    repeat' split at h
    all_goals first
      | exact caseBFinish_ne_err _ _ _ _ _ _ _ _ h
      | simp at h
      | skip

-- The rejection behaviour of `create_used_segment`: `Err` exactly in the
-- four documented cases, and every `Err` carries the untouched manager.
theorem create_err_char (s : MemorySegmenter) (segment req al : Nat)
    (m : SegmentMetadata) (hb : segment ≠ 0) (hl : mlookup s.mem segment = some m)
    (hp2 : isPow2 al = true) :
    (s.create_used_segment segment req al = .err s ↔
      (m.in_use = true ∨ req > m.size ∨ req % SegmentMetadata.SIZE ≠ 0 ∨
        (align_offset (SegmentMetadata.alloc_start_ptr segment) al ≠ 0 ∧
          SegmentMetadata.alloc_start_ptr segment +
              max (align_offset (SegmentMetadata.alloc_start_ptr segment) al)
                SegmentMetadata.SIZE - SegmentMetadata.SIZE + req >
            SegmentMetadata.end_exclusive segment m))) ∧
    ∀ st', s.create_used_segment segment req al = .err st' → st' = s := by
  have herr : ∀ st', s.create_used_segment segment req al = .err st' → st' = s := by
    intro st' h
    unfold MemorySegmenter.create_used_segment at h
    rw [if_neg hb] at h
    split at h
    · exact absurd h (by simp)
    · next seg0 hsome =>
      rw [hl] at hsome
      injection hsome with hs
      subst hs
      dsimp only at h
      repeat' split at h
      all_goals first
        | exact absurd h (caseBFinish_ne_err _ _ _ _ _ _ _ st')
        | (injection h with h'; exact h'.symm)
        | injection h
  refine ⟨⟨?_, ?_⟩, herr⟩
  · intro h
    by_contra hnot
    push_neg at hnot
    obtain ⟨h1, h2, h3, h4⟩ := hnot
    have h1' : m.in_use = false := by
      cases hiu : m.in_use with
      | false => rfl
      | true => exact absurd hiu h1
    by_cases hD : align_offset (SegmentMetadata.alloc_start_ptr segment) al = 0
    · exact create_not_err s segment req al m hb hl hp2 h1' (by omega) h3 (Or.inl hD) s h
    · exact create_not_err s segment req al m hb hl hp2 h1' (by omega) h3
        (Or.inr (h4 hD)) s h
  · intro hcond
    unfold MemorySegmenter.create_used_segment
    rw [if_neg hb]
    split
    · next hnone => rw [hl] at hnone; exact Option.noConfusion hnone
    · next seg0 hsome =>
      rw [hl] at hsome
      injection hsome with hs
      subst hs
      by_cases h1 : m.in_use = true
      · rw [if_pos h1]
      · rw [if_neg h1]
        by_cases h2 : req > m.size
        · rw [if_pos h2]
        · rw [if_neg h2]
          by_cases h3 : req % SegmentMetadata.SIZE ≠ 0
          · rw [if_pos h3]
          · rw [if_neg h3]
            rw [if_neg (by simp [hp2])]
            have h4 : align_offset (SegmentMetadata.alloc_start_ptr segment) al ≠ 0 ∧
                SegmentMetadata.alloc_start_ptr segment +
                    max (align_offset (SegmentMetadata.alloc_start_ptr segment) al)
                      SegmentMetadata.SIZE - SegmentMetadata.SIZE + req >
                  SegmentMetadata.end_exclusive segment m := by
              rcases hcond with hc | hc | hc | hc
              · exact absurd hc h1
              · exact absurd hc h2
              · exact absurd hc h3
              · exact hc
            rw [if_neg h4.1]
            dsimp only
            rw [if_pos h4.2]

/-- C5: `create_used_segment` fails (returns `Err`) exactly in the four
specified cases — candidate in use, request larger than the candidate,
request not a multiple of `H`, or the alignment-adjusted used block running
past `candidate.end_exclusive` — and every `Err` carries the manager exactly
as it was (rejection has no observable effect). -/
theorem c5_create_rejection (s : MemorySegmenter) (segment req al : Nat)
    (m : SegmentMetadata) (hb : segment ≠ 0) (hl : mlookup s.mem segment = some m)
    (hp2 : isPow2 al = true) :
    (s.create_used_segment segment req al = .err s ↔
      (m.in_use = true ∨ req > m.size ∨ req % SegmentMetadata.SIZE ≠ 0 ∨
        (align_offset (SegmentMetadata.alloc_start_ptr segment) al ≠ 0 ∧
          SegmentMetadata.alloc_start_ptr segment +
              max (align_offset (SegmentMetadata.alloc_start_ptr segment) al)
                SegmentMetadata.SIZE - SegmentMetadata.SIZE + req >
            SegmentMetadata.end_exclusive segment m))) ∧
    ∀ st', s.create_used_segment segment req al = .err st' → st' = s :=
  create_err_char s segment req al m hb hl hp2

/-- Witness for C5: an oversized request on a fresh single-block manager is
rejected with the manager unchanged. -/
theorem c5_witness :
    MemorySegmenter.create_used_segment ⟨16, 16, 48, 1, [(16, ⟨0, 32⟩)]⟩ 16 48 16 =
      .err ⟨16, 16, 48, 1, [(16, ⟨0, 32⟩)]⟩ :=
  ((c5_create_rejection ⟨16, 16, 48, 1, [(16, ⟨0, 32⟩)]⟩ 16 48 16 ⟨0, 32⟩ (by decide)
      (by decide) (by decide)).1).mpr (Or.inr (Or.inl (by decide)))

-- Case A with an exact size match: the candidate is simply marked in use.
theorem create_caseA_full_eq (s : MemorySegmenter) (segment req al : Nat)
    (m : SegmentMetadata) (hb : segment ≠ 0) (hl : mlookup s.mem segment = some m)
    (hu : m.in_use = false) (hmod : req % SegmentMetadata.SIZE = 0)
    (hp2 : isPow2 al = true)
    (hoff0 : align_offset (SegmentMetadata.alloc_start_ptr segment) al = 0)
    (heq : m.size = req) :
    s.create_used_segment segment req al =
      .ok { s with mem := mwrite s.mem segment (m.set_in_use true) } segment := by
  unfold MemorySegmenter.create_used_segment
  rw [if_neg hb]
  split
  · next hnone => rw [hl] at hnone; exact Option.noConfusion hnone
  · next seg0 hsome =>
    rw [hl] at hsome
    injection hsome with hs
    subst hs
    rw [if_neg (by simp [hu]), if_neg (by omega), if_neg (by simp [hmod]),
      if_neg (by simp [hp2]), if_pos hoff0]
    dsimp only
    rw [if_pos (by rw [SegmentMetadata.set_in_use_size]; exact heq)]

-- Case A with a proper split: the candidate is truncated and a trailing
-- free segment is written after it.  The `∀ mn` branch handles an existing
-- physical next block (whose `prev` gets repointed), the first branch a
-- candidate that was the last block.
theorem create_caseA_split_eq (s : MemorySegmenter) (segment req al : Nat)
    (m : SegmentMetadata) (hb : segment ≠ 0) (hl : mlookup s.mem segment = some m)
    (hu : m.in_use = false) (hmod : req % SegmentMetadata.SIZE = 0)
    (hp2 : isPow2 al = true)
    (hoff0 : align_offset (SegmentMetadata.alloc_start_ptr segment) al = 0)
    (hsz : req ≤ m.size) (hne : m.size ≠ req) (hreq0 : req ≠ 0)
    (hms8 : m.size % 8 = 0) :
    ∃ seg2, (m.set_in_use true).set_size req = some seg2 ∧ seg2.size = req ∧
      seg2.in_use = true ∧ seg2.next_exists = m.next_exists ∧ seg2.prev = m.prev ∧
      ((m.next_exists = false →
        s.create_used_segment segment req al = .ok
          { s with
            mem := mwrite (mwrite (mwrite (mwrite (mwrite s.mem segment (m.set_in_use true))
              segment seg2) (segment + req)
              (SegmentMetadata.new segment (m.size - req) false m.next_exists))
              segment (seg2.set_next_exists true)) (segment + req)
              ((SegmentMetadata.new segment (m.size - req) false m.next_exists).set_prev segment),
            num_nodes := s.num_nodes + 1 } segment) ∧
      (∀ mn, m.next_exists = true → mlookup s.mem (segment + m.size) = some mn →
        s.create_used_segment segment req al = .ok
          { s with
            mem := mwrite (mwrite (mwrite (mwrite (mwrite (mwrite s.mem segment
              (m.set_in_use true)) segment seg2) (segment + req)
              (SegmentMetadata.new segment (m.size - req) false m.next_exists))
              segment (seg2.set_next_exists true)) (segment + req)
              ((SegmentMetadata.new segment (m.size - req) false m.next_exists).set_prev segment))
              (segment + m.size) (mn.set_prev (segment + req)),
            num_nodes := s.num_nodes + 1 } segment)) := by
  have h8 : req % 8 = 0 := by
    have h16 : req % 16 = 0 := hmod
    omega
  obtain ⟨seg2, hseg2⟩ : ∃ seg2, (m.set_in_use true).set_size req = some seg2 :=
    ⟨_, SegmentMetadata.set_size_of_mod _ _ h8⟩
  obtain ⟨-, hs2size, hs2use, hs2ne, hs2prev⟩ := SegmentMetadata.set_size_spec _ _ _ hseg2
  rw [SegmentMetadata.set_in_use_in_use] at hs2use
  rw [SegmentMetadata.set_in_use_next_exists] at hs2ne
  rw [SegmentMetadata.set_in_use_prev] at hs2prev
  refine ⟨seg2, hseg2, hs2size, hs2use, hs2ne, hs2prev, ?_⟩
  have hwalk : ∀ (finish : SegOutcome Nat),
      (match SegmentMetadata.next (segment + req)
          ((SegmentMetadata.new segment (m.size - req) false m.next_exists).set_prev segment) with
        | none =>
          SegOutcome.ok { s with
            mem := mwrite (mwrite (mwrite (mwrite (mwrite s.mem segment (m.set_in_use true))
              segment seg2) (segment + req)
              (SegmentMetadata.new segment (m.size - req) false m.next_exists))
              segment (seg2.set_next_exists true)) (segment + req)
              ((SegmentMetadata.new segment (m.size - req) false m.next_exists).set_prev segment),
            num_nodes := s.num_nodes + 1 } segment
        | some nn => finish) = finish →
      True := fun _ _ => trivial
  clear hwalk
  constructor
  · intro hnx
    unfold MemorySegmenter.create_used_segment
    rw [if_neg hb]
    split
    · next hnone => rw [hl] at hnone; exact Option.noConfusion hnone
    · next seg0 hsome =>
      rw [hl] at hsome
      injection hsome with hs
      subst hs
      rw [if_neg (by simp [hu]), if_neg (by omega), if_neg (by simp [hmod]),
        if_neg (by simp [hp2]), if_pos hoff0]
      dsimp only
      rw [if_neg (by rw [SegmentMetadata.set_in_use_size]; omega)]
      split
      · next hnone => rw [hseg2] at hnone; exact Option.noConfusion hnone
      · next seg2' hsome2 =>
        rw [hseg2] at hsome2
        injection hsome2 with hs2
        subst hs2
        rw [hs2size]
        rw [SegmentMetadata.set_in_use_size, SegmentMetadata.set_in_use_next_exists, hnx]
        have hne1 : segment ≠ segment + req := by omega
        have hlk1 : mlookup (mwrite (mwrite (mwrite s.mem segment (m.set_in_use true))
            segment seg2) (segment + req)
            (SegmentMetadata.new segment (m.size - req) false false)) segment = some seg2 := by
          rw [mlookup_mwrite_ne _ _ _ _ hne1, mlookup_mwrite_same]
        simp only [hlk1]
        have hlk2 : mlookup (mwrite (mwrite (mwrite (mwrite s.mem segment (m.set_in_use true))
            segment seg2) (segment + req)
            (SegmentMetadata.new segment (m.size - req) false false))
            segment (seg2.set_next_exists true)) (segment + req) =
            some (SegmentMetadata.new segment (m.size - req) false false) := by
          rw [mlookup_mwrite_ne _ _ _ _ hne1.symm, mlookup_mwrite_same]
        simp only [hlk2]
        have hlk3 : mlookup (mwrite (mwrite (mwrite (mwrite (mwrite s.mem segment
            (m.set_in_use true)) segment seg2) (segment + req)
            (SegmentMetadata.new segment (m.size - req) false false))
            segment (seg2.set_next_exists true)) (segment + req)
            ((SegmentMetadata.new segment (m.size - req) false false).set_prev segment))
            (segment + req) =
            some ((SegmentMetadata.new segment (m.size - req) false false).set_prev segment) :=
          mlookup_mwrite_same _ _ _
        simp only [hlk3]
        have hnonext : SegmentMetadata.next (segment + req)
            ((SegmentMetadata.new segment (m.size - req) false false).set_prev segment) = none := by
          simp [SegmentMetadata.next]
        simp only [hnonext]
  · intro mn hnx hmn
    unfold MemorySegmenter.create_used_segment
    rw [if_neg hb]
    split
    · next hnone => rw [hl] at hnone; exact Option.noConfusion hnone
    · next seg0 hsome =>
      rw [hl] at hsome
      injection hsome with hs
      subst hs
      rw [if_neg (by simp [hu]), if_neg (by omega), if_neg (by simp [hmod]),
        if_neg (by simp [hp2]), if_pos hoff0]
      dsimp only
      rw [if_neg (by rw [SegmentMetadata.set_in_use_size]; omega)]
      split
      · next hnone => rw [hseg2] at hnone; exact Option.noConfusion hnone
      · next seg2' hsome2 =>
        rw [hseg2] at hsome2
        injection hsome2 with hs2
        subst hs2
        rw [hs2size]
        rw [SegmentMetadata.set_in_use_size, SegmentMetadata.set_in_use_next_exists, hnx]
        have hne1 : segment ≠ segment + req := by omega
        have hlk1 : mlookup (mwrite (mwrite (mwrite s.mem segment (m.set_in_use true))
            segment seg2) (segment + req)
            (SegmentMetadata.new segment (m.size - req) false true)) segment = some seg2 := by
          rw [mlookup_mwrite_ne _ _ _ _ hne1, mlookup_mwrite_same]
        simp only [hlk1]
        have hlk2 : mlookup (mwrite (mwrite (mwrite (mwrite s.mem segment (m.set_in_use true))
            segment seg2) (segment + req)
            (SegmentMetadata.new segment (m.size - req) false true))
            segment (seg2.set_next_exists true)) (segment + req) =
            some (SegmentMetadata.new segment (m.size - req) false true) := by
          rw [mlookup_mwrite_ne _ _ _ _ hne1.symm, mlookup_mwrite_same]
        simp only [hlk2]
        have hlk3 : mlookup (mwrite (mwrite (mwrite (mwrite (mwrite s.mem segment
            (m.set_in_use true)) segment seg2) (segment + req)
            (SegmentMetadata.new segment (m.size - req) false true))
            segment (seg2.set_next_exists true)) (segment + req)
            ((SegmentMetadata.new segment (m.size - req) false true).set_prev segment))
            (segment + req) =
            some ((SegmentMetadata.new segment (m.size - req) false true).set_prev segment) :=
          mlookup_mwrite_same _ _ _
        simp only [hlk3]
        have hnext : SegmentMetadata.next (segment + req)
            ((SegmentMetadata.new segment (m.size - req) false true).set_prev segment) =
            some (segment + m.size) := by
          simp [SegmentMetadata.next]
          omega
        simp only [hnext]
        rw [if_neg (by omega)]
        have hreqlt : req < m.size := by omega
        have hlk4 : mlookup (mwrite (mwrite (mwrite (mwrite (mwrite s.mem segment
            (m.set_in_use true)) segment seg2) (segment + req)
            (SegmentMetadata.new segment (m.size - req) false true))
            segment (seg2.set_next_exists true)) (segment + req)
            ((SegmentMetadata.new segment (m.size - req) false true).set_prev segment))
            (segment + m.size) = some mn := by
          rw [mlookup_mwrite_ne _ _ _ _ (by omega), mlookup_mwrite_ne _ _ _ _ (by omega),
            mlookup_mwrite_ne _ _ _ _ (by omega), mlookup_mwrite_ne _ _ _ _ (by omega),
            mlookup_mwrite_ne _ _ _ _ (by omega)]
          exact hmn
        simp only [hlk4]

-- `caseBFinish` when the candidate was the last block: only the shrink of
-- the candidate happens.
theorem caseBFinish_nonext_eq (s : MemorySegmenter) (segment : Nat) (m segR : SegmentMetadata)
    (nsb tr : Nat) (mem : Mem) (nodes : Nat) (hnx : m.next_exists = false)
    (hsegR : m.set_size (nsb - segment) = some segR) :
    MemorySegmenter.caseBFinish s segment m nsb tr mem nodes =
      .ok { s with
            mem := mwrite (mwrite mem segment segR) segment (segR.set_next_exists true),
            num_nodes := nodes } nsb := by
  unfold MemorySegmenter.caseBFinish
  have hnone : SegmentMetadata.next segment m = none := by simp [SegmentMetadata.next, hnx]
  simp only [hnone]
  split
  · next hn => rw [hsegR] at hn; exact Option.noConfusion hn
  · next segR' hs =>
    rw [hsegR] at hs
    injection hs with hs'
    subst hs'
    rfl

-- `caseBFinish` when a physical next block exists: its `prev` is repointed
-- to the trailing segment and then the candidate is shrunk.
theorem caseBFinish_next_eq (s : MemorySegmenter) (segment : Nat) (m mn segR : SegmentMetadata)
    (nsb tr : Nat) (mem : Mem) (nodes : Nat) (hnx : m.next_exists = true)
    (hmn : mlookup mem (segment + m.size) = some mn)
    (hsegR : m.set_size (nsb - segment) = some segR) :
    MemorySegmenter.caseBFinish s segment m nsb tr mem nodes =
      .ok { s with
            mem := mwrite (mwrite (mwrite mem (segment + m.size) (mn.set_prev tr))
              segment segR) segment (segR.set_next_exists true),
            num_nodes := nodes } nsb := by
  unfold MemorySegmenter.caseBFinish
  have hsome : SegmentMetadata.next segment m = some (segment + m.size) := by
    simp [SegmentMetadata.next, hnx]
  simp only [hsome, hmn]
  split
  · next hn => rw [hsegR] at hn; exact Option.noConfusion hn
  · next segR' hs =>
    rw [hsegR] at hs
    injection hs with hs'
    subst hs'
    rfl

-- Case B up to `caseBFinish`: the used header is written at
-- `segment + off` (`off` being the alignment offset of the payload, at
-- least one header), with an optional trailing free segment.
theorem create_caseB_eq (s : MemorySegmenter) (segment req al : Nat)
    (m : SegmentMetadata) (off : Nat) (hb : segment ≠ 0)
    (hl : mlookup s.mem segment = some m) (hu : m.in_use = false)
    (hsz : req ≤ m.size) (hmod : req % SegmentMetadata.SIZE = 0) (hp2 : isPow2 al = true)
    (hoffeq : align_offset (SegmentMetadata.alloc_start_ptr segment) al = off)
    (hoffge : SegmentMetadata.SIZE ≤ off) (hreq0 : req ≠ 0)
    (hfit : segment + off + req ≤ segment + m.size) :
    (segment + off + req = segment + m.size →
      s.create_used_segment segment req al =
        MemorySegmenter.caseBFinish s segment m (segment + off) (segment + off)
          (mwrite (mwrite s.mem (segment + off) (SegmentMetadata.new segment req true false))
            (segment + off)
            ((SegmentMetadata.new segment req true false).set_next_exists m.next_exists))
          (s.num_nodes + 1)) ∧
    (segment + off + req < segment + m.size →
      s.create_used_segment segment req al =
        MemorySegmenter.caseBFinish s segment m (segment + off) (segment + off + req)
          (mwrite (mwrite (mwrite (mwrite s.mem (segment + off)
              (SegmentMetadata.new segment req true false))
            (segment + off + req)
            (SegmentMetadata.new (segment + off) (segment + m.size - (segment + off + req))
              false false))
            (segment + off + req)
            ((SegmentMetadata.new (segment + off) (segment + m.size - (segment + off + req))
              false false).set_next_exists m.next_exists))
            (segment + off) ((SegmentMetadata.new segment req true false).set_next_exists true))
          (s.num_nodes + 2)) := by
  have h8 : req % 8 = 0 := by
    have h16 : req % 16 = 0 := hmod
    omega
  have hoffne : align_offset (SegmentMetadata.alloc_start_ptr segment) al ≠ 0 := by
    rw [hoffeq]
    have : SegmentMetadata.SIZE = 16 := rfl
    omega
  have hmax : max (align_offset (SegmentMetadata.alloc_start_ptr segment) al)
      SegmentMetadata.SIZE = off := by
    rw [hoffeq]
    exact Nat.max_eq_left hoffge
  have hnsb : SegmentMetadata.alloc_start_ptr segment +
      max (align_offset (SegmentMetadata.alloc_start_ptr segment) al) SegmentMetadata.SIZE -
      SegmentMetadata.SIZE = segment + off := by
    rw [hmax]
    have h1 : SegmentMetadata.alloc_start_ptr segment = segment + 16 := rfl
    have h2 : SegmentMetadata.SIZE = 16 := rfl
    omega
  have hnewsize : (SegmentMetadata.new segment req true false).size = req :=
    SegmentMetadata.new_size_of_mod _ _ _ _ h8
  have hend : SegmentMetadata.end_exclusive segment m = segment + m.size := rfl
  constructor
  · intro hcase
    unfold MemorySegmenter.create_used_segment
    rw [if_neg hb]
    split
    · next hnone => rw [hl] at hnone; exact Option.noConfusion hnone
    · next seg0 hsome =>
      rw [hl] at hsome
      injection hsome with hs
      subst hs
      rw [if_neg (by simp [hu]), if_neg (by omega), if_neg (by simp [hmod]),
        if_neg (by simp [hp2]), if_neg hoffne]
      dsimp only
      rw [hnsb]
      rw [if_neg (by rw [hend]; omega)]
      have hlk1 : mlookup (mwrite s.mem (segment + off)
          (SegmentMetadata.new segment req true false)) (segment + off) =
          some (SegmentMetadata.new segment req true false) := mlookup_mwrite_same _ _ _
      simp only [hlk1]
      rw [if_neg (by
        rw [hend]
        show ¬ (segment + m.size ≠
          SegmentMetadata.end_exclusive (segment + off) (SegmentMetadata.new segment req true false))
        rw [SegmentMetadata.end_exclusive, hnewsize]
        omega)]
  · intro hcase
    unfold MemorySegmenter.create_used_segment
    rw [if_neg hb]
    split
    · next hnone => rw [hl] at hnone; exact Option.noConfusion hnone
    · next seg0 hsome =>
      rw [hl] at hsome
      injection hsome with hs
      subst hs
      rw [if_neg (by simp [hu]), if_neg (by omega), if_neg (by simp [hmod]),
        if_neg (by simp [hp2]), if_neg hoffne]
      dsimp only
      rw [hnsb]
      rw [if_neg (by rw [hend]; omega)]
      have hlk1 : mlookup (mwrite s.mem (segment + off)
          (SegmentMetadata.new segment req true false)) (segment + off) =
          some (SegmentMetadata.new segment req true false) := mlookup_mwrite_same _ _ _
      simp only [hlk1]
      rw [if_pos (by
        rw [hend]
        show segment + m.size ≠
          SegmentMetadata.end_exclusive (segment + off) (SegmentMetadata.new segment req true false)
        rw [SegmentMetadata.end_exclusive, hnewsize]
        omega)]
      have hee : SegmentMetadata.end_exclusive (segment + off)
          (SegmentMetadata.new segment req true false) = segment + off + req := by
        rw [SegmentMetadata.end_exclusive, hnewsize]
      rw [hee, hend]
      have hlk2 : mlookup (mwrite (mwrite s.mem (segment + off)
          (SegmentMetadata.new segment req true false)) (segment + off + req)
          (SegmentMetadata.new (segment + off) (segment + m.size - (segment + off + req))
            false false)) (segment + off + req) =
          some (SegmentMetadata.new (segment + off) (segment + m.size - (segment + off + req))
            false false) := mlookup_mwrite_same _ _ _
      simp only [hlk2]
      have hlk3 : mlookup (mwrite (mwrite (mwrite s.mem (segment + off)
          (SegmentMetadata.new segment req true false)) (segment + off + req)
          (SegmentMetadata.new (segment + off) (segment + m.size - (segment + off + req))
            false false)) (segment + off + req)
          ((SegmentMetadata.new (segment + off) (segment + m.size - (segment + off + req))
            false false).set_next_exists m.next_exists)) (segment + off) =
          some (SegmentMetadata.new segment req true false) := by
        rw [mlookup_mwrite_ne _ _ _ _ (by omega), mlookup_mwrite_ne _ _ _ _ (by omega),
          mlookup_mwrite_same]
      simp only [hlk3]

-- `delete_used_segment` on the first block when it is the only block: just
-- clear the in-use flag.
theorem delete_only_eq (s : MemorySegmenter) (segment : Nat) (m : SegmentMetadata)
    (hb : segment ≠ 0) (hl : mlookup s.mem segment = some m) (hu : m.in_use = true)
    (hprev : m.prev = 0) (hnx : m.next_exists = false) :
    s.delete_used_segment segment =
      .ok { s with mem := mwrite s.mem segment (m.set_in_use false) } segment := by
  unfold MemorySegmenter.delete_used_segment
  rw [if_neg hb]
  split
  · next hnone => rw [hl] at hnone; exact Option.noConfusion hnone
  · next seg0 hsome =>
    rw [hl] at hsome
    injection hsome with hs
    subst hs
    rw [if_neg (by simp [hu]), if_neg (by simp [hprev])]
    have hnone : SegmentMetadata.next segment m = none := by simp [SegmentMetadata.next, hnx]
    simp only [hnone]

-- `delete_used_segment` on the first block when the next block is in use:
-- no coalescing, just clear the flag.
theorem delete_next_used_eq (s : MemorySegmenter) (segment : Nat) (m mn : SegmentMetadata)
    (hb : segment ≠ 0) (hl : mlookup s.mem segment = some m) (hu : m.in_use = true)
    (hprev : m.prev = 0) (hnx : m.next_exists = true)
    (hmn : mlookup s.mem (segment + m.size) = some mn) (hmnu : mn.in_use = true) :
    s.delete_used_segment segment =
      .ok { s with mem := mwrite s.mem segment (m.set_in_use false) } segment := by
  unfold MemorySegmenter.delete_used_segment
  rw [if_neg hb]
  split
  · next hnone => rw [hl] at hnone; exact Option.noConfusion hnone
  · next seg0 hsome =>
    rw [hl] at hsome
    injection hsome with hs
    subst hs
    rw [if_neg (by simp [hu]), if_neg (by simp [hprev])]
    have hsome2 : SegmentMetadata.next segment m = some (segment + m.size) := by
      simp [SegmentMetadata.next, hnx]
    simp only [hsome2, hmn]
    rw [if_neg (by simp [hmnu])]

-- `delete_used_segment` on the first block with a free next block: the next
-- block is absorbed and, when a block follows it, that block's `prev` is
-- repointed to the first block.
theorem delete_merge_eq (s : MemorySegmenter) (segment : Nat) (m mn : SegmentMetadata)
    (hb : segment ≠ 0) (hl : mlookup s.mem segment = some m) (hu : m.in_use = true)
    (hprev : m.prev = 0) (hnx : m.next_exists = true)
    (hmn : mlookup s.mem (segment + m.size) = some mn) (hmnu : mn.in_use = false)
    (hsum8 : (m.size + mn.size) % 8 = 0) (hsum0 : m.size + mn.size ≠ 0) :
    ∃ seg2, (m.set_next_exists mn.next_exists).set_size (m.size + mn.size) = some seg2 ∧
      seg2.size = m.size + mn.size ∧ seg2.in_use = m.in_use ∧
      seg2.next_exists = mn.next_exists ∧ seg2.prev = m.prev ∧
      ((mn.next_exists = false →
        s.delete_used_segment segment =
          .ok { s with
                mem := mwrite (mwrite s.mem segment seg2) segment (seg2.set_in_use false),
                num_nodes := s.num_nodes - 1 } segment) ∧
      (∀ mnn, mn.next_exists = true →
        mlookup s.mem (segment + (m.size + mn.size)) = some mnn →
        s.delete_used_segment segment =
          .ok { s with
                mem := mwrite (mwrite (mwrite s.mem segment seg2)
                  (segment + (m.size + mn.size)) (mnn.set_prev segment))
                  segment (seg2.set_in_use false),
                num_nodes := s.num_nodes - 1 } segment)) := by
  obtain ⟨seg2, hseg2⟩ : ∃ seg2,
      (m.set_next_exists mn.next_exists).set_size (m.size + mn.size) = some seg2 :=
    ⟨_, SegmentMetadata.set_size_of_mod _ _ hsum8⟩
  obtain ⟨-, hs2size, hs2use, hs2ne, hs2prev⟩ := SegmentMetadata.set_size_spec _ _ _ hseg2
  rw [SegmentMetadata.set_next_exists_in_use] at hs2use
  rw [SegmentMetadata.set_next_exists_next_exists] at hs2ne
  rw [SegmentMetadata.set_next_exists_prev] at hs2prev
  refine ⟨seg2, hseg2, hs2size, hs2use, hs2ne, hs2prev, ?_, ?_⟩
  · intro hmnx
    unfold MemorySegmenter.delete_used_segment
    rw [if_neg hb]
    split
    · next hnone => rw [hl] at hnone; exact Option.noConfusion hnone
    · next seg0 hsome =>
      rw [hl] at hsome
      injection hsome with hs
      subst hs
      rw [if_neg (by simp [hu]), if_neg (by simp [hprev])]
      have hsome2 : SegmentMetadata.next segment m = some (segment + m.size) := by
        simp [SegmentMetadata.next, hnx]
      simp only [hsome2, hmn]
      rw [if_pos (by simp [hmnu])]
      have hsz1 : (m.set_next_exists mn.next_exists).size = m.size :=
        SegmentMetadata.set_next_exists_size m mn.next_exists
      rw [hsz1]
      split
      · next hn => rw [hseg2] at hn; exact Option.noConfusion hn
      · next seg2' hs2 =>
        rw [hseg2] at hs2
        injection hs2 with hs2'
        subst hs2'
        have hnone2 : SegmentMetadata.next segment seg2 = none := by
          simp [SegmentMetadata.next, hs2ne, hmnx]
        simp only [hnone2]
  · intro mnn hmnx hmnn
    unfold MemorySegmenter.delete_used_segment
    rw [if_neg hb]
    split
    · next hnone => rw [hl] at hnone; exact Option.noConfusion hnone
    · next seg0 hsome =>
      rw [hl] at hsome
      injection hsome with hs
      subst hs
      rw [if_neg (by simp [hu]), if_neg (by simp [hprev])]
      have hsome2 : SegmentMetadata.next segment m = some (segment + m.size) := by
        simp [SegmentMetadata.next, hnx]
      simp only [hsome2, hmn]
      rw [if_pos (by simp [hmnu])]
      have hsz1 : (m.set_next_exists mn.next_exists).size = m.size :=
        SegmentMetadata.set_next_exists_size m mn.next_exists
      rw [hsz1]
      split
      · next hn => rw [hseg2] at hn; exact Option.noConfusion hn
      · next seg2' hs2 =>
        rw [hseg2] at hs2
        injection hs2 with hs2'
        subst hs2'
        have hsome3 : SegmentMetadata.next segment seg2 =
            some (segment + (m.size + mn.size)) := by
          simp [SegmentMetadata.next, hs2ne, hmnx, hs2size]
        simp only [hsome3]
        have hlk : mlookup (mwrite s.mem segment seg2) (segment + (m.size + mn.size)) =
            some mnn := by
          rw [mlookup_mwrite_ne _ _ _ _ (by omega)]
          exact hmnn
        simp only [hlk]

-- `caseBFinish` panics when a next block is flagged but no header was ever
-- written at its address (undefined behaviour in the source).
theorem caseBFinish_next_none_eq (s : MemorySegmenter) (segment : Nat) (m : SegmentMetadata)
    (nsb tr : Nat) (mem : Mem) (nodes : Nat) (hnx : m.next_exists = true)
    (hmn : mlookup mem (segment + m.size) = none) :
    MemorySegmenter.caseBFinish s segment m nsb tr mem nodes = .panic := by
  unfold MemorySegmenter.caseBFinish
  have hsome : SegmentMetadata.next segment m = some (segment + m.size) := by
    simp [SegmentMetadata.next, hnx]
  simp only [hsome, hmn]

/-- C6 (amended: for a nonzero `request_size`): split Case B.  With
`off = align_offset(candidate.header + H, required_align) ≠ 0`, the payload
address `p = candidate.header + H + off` is the smallest address at or past
the natural payload that is `required_align`-aligned and leaves at least two
headers of room; an error is returned iff `p − H + request_size` runs past
`candidate.end_exclusive`; on success the used header sits at `p − H` (in
use, of the requested size, `prev` pointing at the candidate), the candidate
is shrunk to the free leading remainder `p − H − candidate.header` with
`next_exists` set, and a trailing free header is written at the used block's
end exactly when it ends before `candidate.end_exclusive` (otherwise the
used block inherits the candidate's old `next_exists`). -/
theorem c6_split_caseB (s : MemorySegmenter) (segment req al : Nat) (m : SegmentMetadata)
    (hb : segment ≠ 0) (hl : mlookup s.mem segment = some m) (hseg16 : segment % 16 = 0)
    (hp2 : isPow2 al = true) (hu : m.in_use = false) (hsz : req ≤ m.size)
    (hmod : req % SegmentMetadata.SIZE = 0) (hreq0 : req ≠ 0)
    (hoff : align_offset (SegmentMetadata.alloc_start_ptr segment) al ≠ 0) :
    (SegmentMetadata.alloc_start_ptr segment ≤ SegmentMetadata.alloc_start_ptr segment +
        align_offset (SegmentMetadata.alloc_start_ptr segment) al ∧
      (SegmentMetadata.alloc_start_ptr segment +
        align_offset (SegmentMetadata.alloc_start_ptr segment) al) % al = 0 ∧
      2 * SegmentMetadata.SIZE ≤ SegmentMetadata.alloc_start_ptr segment +
        align_offset (SegmentMetadata.alloc_start_ptr segment) al - segment ∧
      ∀ q, SegmentMetadata.alloc_start_ptr segment ≤ q → q % al = 0 →
        SegmentMetadata.alloc_start_ptr segment +
          align_offset (SegmentMetadata.alloc_start_ptr segment) al ≤ q) ∧
    (s.create_used_segment segment req al = .err s ↔
      SegmentMetadata.end_exclusive segment m <
        SegmentMetadata.alloc_start_ptr segment +
          align_offset (SegmentMetadata.alloc_start_ptr segment) al -
          SegmentMetadata.SIZE + req) ∧
    (∀ st' v, s.create_used_segment segment req al = .ok st' v →
      v = SegmentMetadata.alloc_start_ptr segment +
          align_offset (SegmentMetadata.alloc_start_ptr segment) al -
          SegmentMetadata.SIZE ∧
      (∃ mu, mlookup st'.mem v = some mu ∧ mu.in_use = true ∧ mu.size = req ∧
        mu.prev = segment ∧
        (v + req = SegmentMetadata.end_exclusive segment m →
          mu.next_exists = m.next_exists)) ∧
      (∃ mc, mlookup st'.mem segment = some mc ∧ mc.in_use = false ∧
        mc.size = v - segment ∧ mc.next_exists = true) ∧
      (v + req < SegmentMetadata.end_exclusive segment m →
        ∃ mt, mlookup st'.mem (v + req) = some mt ∧ mt.in_use = false ∧
          mt.prev = v ∧ mt.next_exists = m.next_exists)) := by
  have hal0 : 0 < al := isPow2_pos al hp2
  have h16p : (16 : Nat) ∣ SegmentMetadata.alloc_start_ptr segment := by
    have : SegmentMetadata.alloc_start_ptr segment = segment + 16 := rfl
    omega
  have hal16 : (16 : Nat) ∣ al := by
    rcases pow2_dvd_or_dvd al 16 hp2 (by decide) with h | h
    · exfalso
      apply hoff
      rw [align_offset_eq_zero_iff _ _ hal0]
      exact Nat.dvd_iff_mod_eq_zero.mp (h.trans h16p)
    · exact h
  have hoffd : (16 : Nat) ∣ align_offset (SegmentMetadata.alloc_start_ptr segment) al :=
    dvd_align_offset 16 _ al hal16 h16p
  have hoffge : SegmentMetadata.SIZE ≤
      align_offset (SegmentMetadata.alloc_start_ptr segment) al := by
    have h1 : SegmentMetadata.SIZE = 16 := rfl
    have h2 := Nat.le_of_dvd (Nat.pos_of_ne_zero hoff) hoffd
    omega
  have hoff8 : align_offset (SegmentMetadata.alloc_start_ptr segment) al % 8 = 0 := by
    omega
  have hpm : SegmentMetadata.alloc_start_ptr segment +
      align_offset (SegmentMetadata.alloc_start_ptr segment) al - SegmentMetadata.SIZE =
      segment + align_offset (SegmentMetadata.alloc_start_ptr segment) al := by
    have h1 : SegmentMetadata.alloc_start_ptr segment = segment + 16 := rfl
    have h2 : SegmentMetadata.SIZE = 16 := rfl
    omega
  have hend : SegmentMetadata.end_exclusive segment m = segment + m.size := rfl
  have hsegR : ∃ segR, m.set_size (segment +
      align_offset (SegmentMetadata.alloc_start_ptr segment) al - segment) = some segR := by
    refine ⟨_, SegmentMetadata.set_size_of_mod _ _ ?_⟩
    omega
  obtain ⟨segR, hsegR⟩ := hsegR
  obtain ⟨-, hsRsize, hsRuse, hsRne, hsRprev⟩ := SegmentMetadata.set_size_spec _ _ _ hsegR
  refine ⟨?_, ?_, ?_⟩
  · refine ⟨Nat.le_add_right _ _, align_offset_add_mod _ _ hal0, ?_, ?_⟩
    · have h1 : SegmentMetadata.alloc_start_ptr segment = segment + 16 := rfl
      have h2 : SegmentMetadata.SIZE = 16 := rfl
      omega
    · intro q hq1 hq2
      exact align_offset_min _ al q hal0 hq1 hq2
  · constructor
    · intro herr
      by_contra hnot
      push_neg at hnot
      rw [hend, hpm] at hnot
      rcases Nat.lt_or_ge (segment + align_offset (SegmentMetadata.alloc_start_ptr segment) al
          + req) (segment + m.size) with hcase | hcase
      · have := ((create_caseB_eq s segment req al m _ hb hl hu hsz hmod hp2 rfl hoffge
          hreq0 (by omega)).2 hcase)
        rw [this] at herr
        exact caseBFinish_ne_err _ _ _ _ _ _ _ s herr
      · have hcase' : segment + align_offset (SegmentMetadata.alloc_start_ptr segment) al
            + req = segment + m.size := by omega
        have := ((create_caseB_eq s segment req al m _ hb hl hu hsz hmod hp2 rfl hoffge
          hreq0 (by omega)).1 hcase')
        rw [this] at herr
        exact caseBFinish_ne_err _ _ _ _ _ _ _ s herr
    · intro hlt
      refine ((create_err_char s segment req al m hb hl hp2).1).mpr ?_
      refine Or.inr (Or.inr (Or.inr ⟨hoff, ?_⟩))
      have hmax : max (align_offset (SegmentMetadata.alloc_start_ptr segment) al)
          SegmentMetadata.SIZE = align_offset (SegmentMetadata.alloc_start_ptr segment) al :=
        Nat.max_eq_left hoffge
      rw [hmax]
      omega
  · intro st' v hok
    rcases Nat.lt_trichotomy (segment + align_offset (SegmentMetadata.alloc_start_ptr segment) al
        + req) (segment + m.size) with hcase | hcase | hcase
    · -- trailing free segment
      have heq := ((create_caseB_eq s segment req al m _ hb hl hu hsz hmod hp2 rfl hoffge
        hreq0 (by omega)).2 hcase)
      rw [heq] at hok
      cases hnx : m.next_exists with
      | false =>
        rw [caseBFinish_nonext_eq s segment m segR _ _ _ _ hnx (by
          have harith : segment + align_offset (SegmentMetadata.alloc_start_ptr segment) al
              - segment = align_offset (SegmentMetadata.alloc_start_ptr segment) al := by omega
          rw [harith] at hsegR ⊢
          exact hsegR)] at hok
        injection hok with hst hv
        subst hst
        subst hv
        refine ⟨by omega, ?_, ?_, ?_⟩
        · refine ⟨(SegmentMetadata.new segment req true false).set_next_exists true,
            ?_, by simp, by
              rw [SegmentMetadata.set_next_exists_size]
              exact SegmentMetadata.new_size_of_mod segment req true false
                (by have h16 : req % 16 = 0 := hmod; omega), by simp, ?_⟩
          · show mlookup _ (segment + align_offset (SegmentMetadata.alloc_start_ptr segment) al)
              = _
            rw [mlookup_mwrite_ne _ _ _ _ (by omega), mlookup_mwrite_ne _ _ _ _ (by omega),
              mlookup_mwrite_same]
          · intro habs
            rw [hend] at habs
            omega
        · refine ⟨segR.set_next_exists true, ?_, by simp [hsRuse, hu], ?_, by simp⟩
          · show mlookup _ segment = _
            rw [mlookup_mwrite_same]
          · rw [SegmentMetadata.set_next_exists_size, hsRsize]
        · intro hlt2
          refine ⟨(SegmentMetadata.new
              (segment + align_offset (SegmentMetadata.alloc_start_ptr segment) al)
              (segment + m.size - (segment +
                align_offset (SegmentMetadata.alloc_start_ptr segment) al + req))
              false false).set_next_exists m.next_exists, ?_, by simp, by simp, by simp [hnx]⟩
          rw [mlookup_mwrite_ne _ _ _ _ (by omega), mlookup_mwrite_ne _ _ _ _ (by omega),
            mlookup_mwrite_ne _ _ _ _ (by omega), mlookup_mwrite_same]
      | true =>
        cases hmnl : mlookup (mwrite (mwrite (mwrite (mwrite s.mem
            (segment + align_offset (SegmentMetadata.alloc_start_ptr segment) al)
            (SegmentMetadata.new segment req true false))
            (segment + align_offset (SegmentMetadata.alloc_start_ptr segment) al + req)
            (SegmentMetadata.new
              (segment + align_offset (SegmentMetadata.alloc_start_ptr segment) al)
              (segment + m.size - (segment +
                align_offset (SegmentMetadata.alloc_start_ptr segment) al + req))
              false false))
            (segment + align_offset (SegmentMetadata.alloc_start_ptr segment) al + req)
            ((SegmentMetadata.new
              (segment + align_offset (SegmentMetadata.alloc_start_ptr segment) al)
              (segment + m.size - (segment +
                align_offset (SegmentMetadata.alloc_start_ptr segment) al + req))
              false false).set_next_exists m.next_exists))
            (segment + align_offset (SegmentMetadata.alloc_start_ptr segment) al)
            ((SegmentMetadata.new segment req true false).set_next_exists true))
            (segment + m.size) with
        | none =>
          rw [caseBFinish_next_none_eq s segment m _ _ _ _ hnx hmnl] at hok
          exact SegOutcome.noConfusion hok
        | some mn =>
          rw [caseBFinish_next_eq s segment m mn segR _ _ _ _ hnx hmnl (by
            have harith : segment + align_offset (SegmentMetadata.alloc_start_ptr segment) al
                - segment = align_offset (SegmentMetadata.alloc_start_ptr segment) al := by
              omega
            rw [harith] at hsegR ⊢
            exact hsegR)] at hok
          injection hok with hst hv
          subst hst
          subst hv
          refine ⟨by omega, ?_, ?_, ?_⟩
          · refine ⟨(SegmentMetadata.new segment req true false).set_next_exists true,
              ?_, by simp, by
                rw [SegmentMetadata.set_next_exists_size]
                exact SegmentMetadata.new_size_of_mod segment req true false
                  (by have h16 : req % 16 = 0 := hmod; omega), by simp, ?_⟩
            · show mlookup _
                (segment + align_offset (SegmentMetadata.alloc_start_ptr segment) al) = _
              rw [mlookup_mwrite_ne _ _ _ _ (by omega), mlookup_mwrite_ne _ _ _ _ (by omega),
                mlookup_mwrite_ne _ _ _ _ (by omega), mlookup_mwrite_same]
            · intro habs
              rw [hend] at habs
              omega
          · refine ⟨segR.set_next_exists true, ?_, by simp [hsRuse, hu], ?_, by simp⟩
            · show mlookup _ segment = _
              rw [mlookup_mwrite_same]
            · rw [SegmentMetadata.set_next_exists_size, hsRsize]
          · intro hlt2
            refine ⟨(SegmentMetadata.new
                (segment + align_offset (SegmentMetadata.alloc_start_ptr segment) al)
                (segment + m.size - (segment +
                  align_offset (SegmentMetadata.alloc_start_ptr segment) al + req))
                false false).set_next_exists m.next_exists, ?_, by simp, by simp,
                by simp [hnx]⟩
            rw [mlookup_mwrite_ne _ _ _ _ (by omega), mlookup_mwrite_ne _ _ _ _ (by omega),
              mlookup_mwrite_ne _ _ _ _ (by omega), mlookup_mwrite_ne _ _ _ _ (by omega),
              mlookup_mwrite_same]
    · -- exact fit, no trailing segment
      have heq := ((create_caseB_eq s segment req al m _ hb hl hu hsz hmod hp2 rfl hoffge
        hreq0 (by omega)).1 hcase)
      rw [heq] at hok
      cases hnx : m.next_exists with
      | false =>
        rw [caseBFinish_nonext_eq s segment m segR _ _ _ _ hnx (by
          have harith : segment + align_offset (SegmentMetadata.alloc_start_ptr segment) al
              - segment = align_offset (SegmentMetadata.alloc_start_ptr segment) al := by omega
          rw [harith] at hsegR ⊢
          exact hsegR)] at hok
        injection hok with hst hv
        subst hst
        subst hv
        refine ⟨by omega, ?_, ?_, ?_⟩
        · refine ⟨(SegmentMetadata.new segment req true false).set_next_exists m.next_exists,
            ?_, by simp, by
              rw [SegmentMetadata.set_next_exists_size]
              exact SegmentMetadata.new_size_of_mod segment req true false
                (by have h16 : req % 16 = 0 := hmod; omega), by simp, fun _ => by simp [hnx]⟩
          show mlookup _ (segment + align_offset (SegmentMetadata.alloc_start_ptr segment) al)
            = _
          rw [mlookup_mwrite_ne _ _ _ _ (by omega), mlookup_mwrite_ne _ _ _ _ (by omega),
            mlookup_mwrite_same]
        · refine ⟨segR.set_next_exists true, ?_, by simp [hsRuse, hu], ?_, by simp⟩
          · show mlookup _ segment = _
            rw [mlookup_mwrite_same]
          · rw [SegmentMetadata.set_next_exists_size, hsRsize]
        · intro hlt2
          rw [hend] at hlt2
          omega
      | true =>
        cases hmnl : mlookup (mwrite (mwrite s.mem
            (segment + align_offset (SegmentMetadata.alloc_start_ptr segment) al)
            (SegmentMetadata.new segment req true false))
            (segment + align_offset (SegmentMetadata.alloc_start_ptr segment) al)
            ((SegmentMetadata.new segment req true false).set_next_exists m.next_exists))
            (segment + m.size) with
        | none =>
          rw [caseBFinish_next_none_eq s segment m _ _ _ _ hnx hmnl] at hok
          exact SegOutcome.noConfusion hok
        | some mn =>
          rw [caseBFinish_next_eq s segment m mn segR _ _ _ _ hnx hmnl (by
            have harith : segment + align_offset (SegmentMetadata.alloc_start_ptr segment) al
                - segment = align_offset (SegmentMetadata.alloc_start_ptr segment) al := by
              omega
            rw [harith] at hsegR ⊢
            exact hsegR)] at hok
          injection hok with hst hv
          subst hst
          subst hv
          refine ⟨by omega, ?_, ?_, ?_⟩
          · refine ⟨(SegmentMetadata.new segment req true false).set_next_exists m.next_exists,
              ?_, by simp, by
                rw [SegmentMetadata.set_next_exists_size]
                exact SegmentMetadata.new_size_of_mod segment req true false
                  (by have h16 : req % 16 = 0 := hmod; omega), by simp, fun _ => by simp [hnx]⟩
            show mlookup _
              (segment + align_offset (SegmentMetadata.alloc_start_ptr segment) al) = _
            rw [mlookup_mwrite_ne _ _ _ _ (by omega), mlookup_mwrite_ne _ _ _ _ (by omega),
              mlookup_mwrite_ne _ _ _ _ (by omega), mlookup_mwrite_same]
          · refine ⟨segR.set_next_exists true, ?_, by simp [hsRuse, hu], ?_, by simp⟩
            · show mlookup _ segment = _
              rw [mlookup_mwrite_same]
            · rw [SegmentMetadata.set_next_exists_size, hsRsize]
          · intro hlt2
            rw [hend] at hlt2
            omega
    · -- the request does not fit: the call errs, contradicting `hok`
      have herr : s.create_used_segment segment req al = .err s := by
        refine ((create_err_char s segment req al m hb hl hp2).1).mpr ?_
        refine Or.inr (Or.inr (Or.inr ⟨hoff, ?_⟩))
        have hmax : max (align_offset (SegmentMetadata.alloc_start_ptr segment) al)
            SegmentMetadata.SIZE = align_offset (SegmentMetadata.alloc_start_ptr segment) al :=
          Nat.max_eq_left hoffge
        rw [hmax, hend]
        have h1 : SegmentMetadata.alloc_start_ptr segment = segment + 16 := rfl
        have h2 : SegmentMetadata.SIZE = 16 := rfl
        omega
      rw [herr] at hok
      exact SegOutcome.noConfusion hok

/-- The manager carried by a successful outcome, if any. -/
def okState {α : Type} : SegOutcome α → Option MemorySegmenter
  | .ok st _ => some st
  | _ => none

/-- The value carried by a successful outcome, if any. -/
def okVal {α : Type} : SegOutcome α → Option α
  | .ok _ v => some v
  | _ => none

/-- Witness for C6 at a concrete manager: an aligned request that cannot fit
after the alignment shift is rejected with the manager unchanged. -/
theorem c6_witness :
    MemorySegmenter.create_used_segment ⟨16, 16, 80, 1, [(16, ⟨0, 64⟩)]⟩ 16 48 64 =
      .err ⟨16, 16, 80, 1, [(16, ⟨0, 64⟩)]⟩ :=
  ((c6_split_caseB ⟨16, 16, 80, 1, [(16, ⟨0, 64⟩)]⟩ 16 48 64 ⟨0, 64⟩ (by decide) (by decide)
      (by decide) (by decide) (by decide) (by decide) (by decide) (by decide)
      (by decide)).2.1).mpr (by decide)

/-- Counterexample for C6 as stated: with `subsegment_size = 0` (a multiple
of `H` not excluded by any of the split's checks) and a candidate needing
alignment, the call returns `Ok` with the new header at `p − H`, but the
trailing free header is then written at that same address and clobbers it:
the header at `p − H` is NOT in use, contradicting the claimed layout. -/
theorem c6_counterexample :
    okVal (MemorySegmenter.create_used_segment ⟨16, 16, 64, 1, [(16, ⟨0, 48⟩)]⟩ 16 0 64) =
        some 48 ∧
      ((okState (MemorySegmenter.create_used_segment ⟨16, 16, 64, 1, [(16, ⟨0, 48⟩)]⟩ 16 0 64)).map
        (fun st => (mlookup st.mem 48).map SegmentMetadata.in_use)) = some (some false) ∧
      align_offset (SegmentMetadata.alloc_start_ptr 16) 64 = 32 ∧
      (⟨0, 48⟩ : SegmentMetadata).in_use = false ∧
      (0 : Nat) ≤ (⟨0, 48⟩ : SegmentMetadata).size ∧
      (0 : Nat) % SegmentMetadata.SIZE = 0 := by decide

/-- The scan loop's candidate test: the block passes the size test and the
(spec-modelled) alignment feasibility check. -/
def candB (real_layout_size subsegment_size real_align : Nat)
    (e : Nat × SegmentMetadata) : Bool :=
  !decide (e.2.size_allocable < real_layout_size) &&
    calculate_alloc_ptr_with_required_align e.1 e.2 subsegment_size real_align

-- The fold of the scan loop keeps the LAST entry passing both tests.
theorem scanStep_foldl (real_layout_size subsegment_size real_align : Nat)
    (l : List (Nat × SegmentMetadata)) :
    ∀ acc, l.foldl (LinkedListAlloc.scanStep real_layout_size subsegment_size real_align) acc =
      match (l.filter (candB real_layout_size subsegment_size real_align)).getLast? with
      | some e => some e.1
      | none => acc := by
  induction l with
  | nil => intro acc; rfl
  | cons e l ih =>
    intro acc
    rw [List.foldl_cons, ih]
    cases hc : candB real_layout_size subsegment_size real_align e with
    | true =>
      have hc' := hc
      unfold candB at hc'
      rw [Bool.and_eq_true] at hc'
      have hstep : LinkedListAlloc.scanStep real_layout_size subsegment_size real_align acc e =
          some e.1 := by
        unfold LinkedListAlloc.scanStep
        rw [if_neg (by simpa using hc'.1), if_neg (by simp [hc'.2])]
      rw [hstep]
      have hfc : (e :: l).filter (candB real_layout_size subsegment_size real_align) =
          e :: l.filter (candB real_layout_size subsegment_size real_align) := by
        simp [List.filter_cons, hc]
      rw [hfc]
      cases hrest : l.filter (candB real_layout_size subsegment_size real_align) with
      | nil => rfl
      | cons x xs =>
        rw [List.getLast?_cons_cons]
        obtain ⟨y, hy⟩ : ∃ y, (x :: xs).getLast? = some y := by
          cases hg : (x :: xs).getLast? with
          | none =>
            exfalso
            rw [List.getLast?_eq_none_iff] at hg
            exact List.noConfusion hg
          | some y => exact ⟨y, rfl⟩
        rw [hy]
    | false =>
      have hstep : LinkedListAlloc.scanStep real_layout_size subsegment_size real_align acc e =
          acc := by
        unfold LinkedListAlloc.scanStep
        by_cases h1 : e.2.size_allocable < real_layout_size
        · rw [if_pos h1]
        · have hcalc : calculate_alloc_ptr_with_required_align e.1 e.2
              subsegment_size real_align = false := by
            simpa [candB, h1] using hc
          rw [if_neg h1, if_pos (by simp [hcalc])]
      rw [hstep]
      have hfc : (e :: l).filter (candB real_layout_size subsegment_size real_align) =
          l.filter (candB real_layout_size subsegment_size real_align) := by
        simp [List.filter_cons, hc]
      rw [hfc]

/-- C1 (amended): the scan visits blocks in physical order but keeps
overwriting the candidate variable, so the block passed to the split
routine is the LAST free block that satisfies both (a) `size_allocable ≥`
the rounded request size and (b) the alignment feasibility check — not the
first. -/
theorem c1_scan_picks_last (s : MemorySegmenter) (size align : Nat)
    (entries : List (Nat × SegmentMetadata))
    (h : segChain s.mem s.head s.num_nodes = some entries) :
    LinkedListAlloc.allocate s size align =
      match (entries.filter (candB (next_multiple_of size SegmentMetadata.SIZE)
          (next_multiple_of size SegmentMetadata.SIZE + SegmentMetadata.SIZE)
          (max align SegmentMetadata.SIZE))).getLast? with
      | some e =>
        match s.create_used_segment e.1
            (next_multiple_of size SegmentMetadata.SIZE + SegmentMetadata.SIZE)
            (max align SegmentMetadata.SIZE) with
        | .ok st new_segment => .ok st (SegmentMetadata.alloc_start_ptr new_segment,
            next_multiple_of size SegmentMetadata.SIZE)
        | .err st => .err st
        | .panic => .panic
      | none => .err s := by
  unfold LinkedListAlloc.allocate
  dsimp only
  split
  · next hnone => rw [h] at hnone; exact Option.noConfusion hnone
  · next entries' hsome =>
    rw [h] at hsome
    injection hsome with hs
    subst hs
    rw [scanStep_foldl]
    cases hlast : (entries.filter (candB (next_multiple_of size SegmentMetadata.SIZE)
        (next_multiple_of size SegmentMetadata.SIZE + SegmentMetadata.SIZE)
        (max align SegmentMetadata.SIZE))).getLast? with
    | none => rfl
    | some e => rfl

/-- Counterexample for C1 as stated: on a manager with two acceptable free
blocks (addresses 16 and 80, the block at 48 in use between them), the first
candidate is the block at 16 — it is free, large enough, and passes the
feasibility check — yet `allocate` returns the payload of the LAST
candidate, `96 = 80 + H`, not `32 = 16 + H`. -/
theorem c1_counterexample :
    LinkedListAlloc.allocPtr (LinkedListAlloc.allocate
        ⟨16, 16, 112, 3, [(16, ⟨0, 34⟩), (48, ⟨16, 35⟩), (80, ⟨48, 32⟩)]⟩ 16 1) = some 96 ∧
      candB 16 32 16 (16, (⟨0, 34⟩ : SegmentMetadata)) = true ∧
      ((96 : Nat) ≠ SegmentMetadata.alloc_start_ptr 16) := by decide

/-- Witness for C1's amended statement at the same concrete manager. -/
theorem c1_witness :
    LinkedListAlloc.allocate
        ⟨16, 16, 112, 3, [(16, ⟨0, 34⟩), (48, ⟨16, 35⟩), (80, ⟨48, 32⟩)]⟩ 16 1 =
      match (([(16, ⟨0, 34⟩), (48, ⟨16, 35⟩), (80, ⟨48, 32⟩)] :
          List (Nat × SegmentMetadata)).filter (candB (next_multiple_of 16 SegmentMetadata.SIZE)
          (next_multiple_of 16 SegmentMetadata.SIZE + SegmentMetadata.SIZE)
          (max 1 SegmentMetadata.SIZE))).getLast? with
      | some e =>
        match MemorySegmenter.create_used_segment
            ⟨16, 16, 112, 3, [(16, ⟨0, 34⟩), (48, ⟨16, 35⟩), (80, ⟨48, 32⟩)]⟩ e.1
            (next_multiple_of 16 SegmentMetadata.SIZE + SegmentMetadata.SIZE)
            (max 1 SegmentMetadata.SIZE) with
        | .ok st new_segment => .ok st (SegmentMetadata.alloc_start_ptr new_segment,
            next_multiple_of 16 SegmentMetadata.SIZE)
        | .err st => .err st
        | .panic => .panic
      | none => .err ⟨16, 16, 112, 3, [(16, ⟨0, 34⟩), (48, ⟨16, 35⟩), (80, ⟨48, 32⟩)]⟩ :=
  c1_scan_picks_last ⟨16, 16, 112, 3, [(16, ⟨0, 34⟩), (48, ⟨16, 35⟩), (80, ⟨48, 32⟩)]⟩ 16 1
    [(16, ⟨0, 34⟩), (48, ⟨16, 35⟩), (80, ⟨48, 32⟩)] (by decide)

/-- C2 (code bug): freeing an in-use block whose `prev` is non-null reaches
the `todo!()` at src/memory_segmenter/mod.rs line 190 and panics instead of
returning successfully and coalescing backward.  Here the manager satisfies
the invariants, the block at 48 is in use, its physical predecessor at 16 is
free — the claim requires the free to succeed and absorb the block into its
predecessor — yet the call panics. -/
theorem c2_delete_nonfirst_todo_panics :
    Wf ⟨16, 16, 80, 2, [(16, ⟨0, 34⟩), (48, ⟨16, 33⟩)]⟩ ∧
      mlookup [(16, ⟨0, 34⟩), (48, ⟨16, 33⟩)] 48 = some (⟨16, 33⟩ : SegmentMetadata) ∧
      (⟨16, 33⟩ : SegmentMetadata).in_use = true ∧
      (⟨16, 33⟩ : SegmentMetadata).prev = 16 ∧
      (⟨0, 34⟩ : SegmentMetadata).in_use = false ∧
      MemorySegmenter.delete_used_segment
        ⟨16, 16, 80, 2, [(16, ⟨0, 34⟩), (48, ⟨16, 33⟩)]⟩ 48 = .panic :=
  ⟨⟨rfl, by decide, by decide,
    ⟨[(16, ⟨0, 34⟩), (48, ⟨16, 33⟩)], by decide, by decide, by decide⟩⟩,
    by decide, by decide, by decide, by decide, by decide⟩

/-- C4 (code bug): the allocate/free round trip panics.  On an
invariant-satisfying fresh manager, `allocate(16, 64)` succeeds via split
Case B, so the used block's `prev` is non-null; the subsequent `deallocate`
of the returned pointer reaches the `todo!()` in `delete_used_segment` and
panics instead of restoring the manager. -/
theorem c4_roundtrip_panics :
    Wf ⟨16, 16, 80, 1, [(16, ⟨0, 64⟩)]⟩ ∧
      LinkedListAlloc.allocPtr
        (LinkedListAlloc.allocate ⟨16, 16, 80, 1, [(16, ⟨0, 64⟩)]⟩ 16 64) = some 64 ∧
      LinkedListAlloc.roundTrip ⟨16, 16, 80, 1, [(16, ⟨0, 64⟩)]⟩ 16 64 = .panic :=
  ⟨⟨rfl, by decide, by decide, ⟨[(16, ⟨0, 64⟩)], by decide, by decide, by decide⟩⟩,
    by decide, by decide⟩

-- A successful `caseBFinish` always returns the new used header's address.
theorem caseBFinish_ok_val (s : MemorySegmenter) (segment : Nat) (m : SegmentMetadata)
    (nsb tr : Nat) (mem : Mem) (nodes : Nat) (st : MemorySegmenter) (v : Nat)
    (h : MemorySegmenter.caseBFinish s segment m nsb tr mem nodes = .ok st v) : v = nsb := by
  unfold MemorySegmenter.caseBFinish at h
  dsimp only at h
  repeat' split at h
  all_goals first
    | exact SegOutcome.noConfusion h
    | (injection h with h1 h2; exact h2.symm)

-- A successful `create_used_segment` returns either the candidate itself
-- (Case A) or the alignment-shifted header address (Case B).
set_option maxHeartbeats 1600000 in
theorem create_ok_val (s : MemorySegmenter) (segment req al : Nat) (st : MemorySegmenter)
    (v : Nat) (h : s.create_used_segment segment req al = .ok st v) :
    (align_offset (SegmentMetadata.alloc_start_ptr segment) al = 0 ∧ v = segment) ∨
      (align_offset (SegmentMetadata.alloc_start_ptr segment) al ≠ 0 ∧
        v = SegmentMetadata.alloc_start_ptr segment +
            max (align_offset (SegmentMetadata.alloc_start_ptr segment) al)
              SegmentMetadata.SIZE - SegmentMetadata.SIZE) := by
  unfold MemorySegmenter.create_used_segment at h
  split at h
  · exact SegOutcome.noConfusion h
  · split at h
    · exact SegOutcome.noConfusion h
    · split at h
      · exact SegOutcome.noConfusion h
      · split at h
        · exact SegOutcome.noConfusion h
        · split at h
          · exact SegOutcome.noConfusion h
          · split at h
            · exact SegOutcome.noConfusion h
            · split at h
              · next hoff0 =>
                dsimp only at h
                repeat' split at h
                all_goals first
                  | exact SegOutcome.noConfusion h
                  | (injection h with h1 h2; exact Or.inl ⟨hoff0, h2.symm⟩)
              · next hoffne =>
                dsimp only at h
                split at h
                · exact SegOutcome.noConfusion h
                · split at h
                  · exact SegOutcome.noConfusion h
                  · split at h
                    · repeat' split at h
                      all_goals first
                        | exact SegOutcome.noConfusion h
                        | exact Or.inr ⟨hoffne, caseBFinish_ok_val _ _ _ _ _ _ _ _ _ h⟩
                    · exact Or.inr ⟨hoffne, caseBFinish_ok_val _ _ _ _ _ _ _ _ _ h⟩

-- On a header-aligned candidate, a nonzero alignment offset of the payload
-- is at least one header and a multiple of 16.
theorem align_offset_ge_SIZE (segment al : Nat) (hseg16 : segment % 16 = 0)
    (hp2 : isPow2 al = true)
    (hoff : align_offset (SegmentMetadata.alloc_start_ptr segment) al ≠ 0) :
    SegmentMetadata.SIZE ≤ align_offset (SegmentMetadata.alloc_start_ptr segment) al ∧
      align_offset (SegmentMetadata.alloc_start_ptr segment) al % 16 = 0 := by
  have hal0 : 0 < al := isPow2_pos al hp2
  have h16p : (16 : Nat) ∣ SegmentMetadata.alloc_start_ptr segment := by
    have : SegmentMetadata.alloc_start_ptr segment = segment + 16 := rfl
    omega
  have hal16 : (16 : Nat) ∣ al := by
    rcases pow2_dvd_or_dvd al 16 hp2 (by decide) with h | h
    · exfalso
      apply hoff
      rw [align_offset_eq_zero_iff _ _ hal0]
      exact Nat.dvd_iff_mod_eq_zero.mp (h.trans h16p)
    · exact h
  have hoffd : (16 : Nat) ∣ align_offset (SegmentMetadata.alloc_start_ptr segment) al :=
    dvd_align_offset 16 _ al hal16 h16p
  have h2 := Nat.le_of_dvd (Nat.pos_of_ne_zero hoff) hoffd
  have h1 : SegmentMetadata.SIZE = 16 := rfl
  exact ⟨by omega, by omega⟩

-- The promoted alignment `max align H` is a power of two, a multiple of the
-- header size, and a multiple of the requested alignment.
theorem max16_facts (align : Nat) (h : isPow2 align = true) :
    isPow2 (max align SegmentMetadata.SIZE) = true ∧
      (16 : Nat) ∣ max align SegmentMetadata.SIZE ∧
      align ∣ max align SegmentMetadata.SIZE := by
  have h16 : SegmentMetadata.SIZE = 16 := rfl
  have hp16 : isPow2 16 = true := by decide
  rcases Nat.le_total align 16 with hle | hge
  · have hmax : max align SegmentMetadata.SIZE = 16 := by rw [h16]; exact Nat.max_eq_right hle
    rw [hmax]
    refine ⟨hp16, dvd_rfl, ?_⟩
    rcases pow2_dvd_or_dvd align 16 h hp16 with hd | hd
    · exact hd
    · have := Nat.le_of_dvd (isPow2_pos align h) hd
      have heq : align = 16 := by omega
      rw [heq]
  · have hmax : max align SegmentMetadata.SIZE = align := by rw [h16]; exact Nat.max_eq_left hge
    rw [hmax]
    refine ⟨h, ?_, dvd_rfl⟩
    rcases pow2_dvd_or_dvd 16 align hp16 h with hd | hd
    · exact hd
    · have := Nat.le_of_dvd (by omega) hd
      have heq : align = 16 := by omega
      rw [heq]

/-- C7: for every successful `allocate(size, align)` on an
invariant-satisfying manager with a power-of-two alignment: the returned
slice length is `size` rounded up to a multiple of `H` (the internal
request being that rounded size plus `H`), and the returned payload pointer
satisfies the promoted alignment `max(align, H)` — hence also the caller's
alignment and the header alignment `H`. -/
theorem c7_allocate_contract (s : MemorySegmenter) (size align : Nat) (hWf : Wf s)
    (hp2 : isPow2 align = true) :
    ∀ st p len, LinkedListAlloc.allocate s size align = .ok st (p, len) →
      len = next_multiple_of size SegmentMetadata.SIZE ∧
        p % (max align SegmentMetadata.SIZE) = 0 ∧ p % align = 0 ∧
        p % SegmentMetadata.SIZE = 0 := by
  intro st p len hok
  obtain ⟨hhead, hst16, hst0, l, hblocks, hpart, hlen⟩ := hWf
  have hchain : segChain s.mem s.head s.num_nodes = some l := by
    rw [hhead]
    exact blocksOk_segChain s.mem l s.start 0 s.num_nodes hblocks (by omega)
  obtain ⟨hra2, hra16, hraal⟩ := max16_facts align hp2
  unfold LinkedListAlloc.allocate at hok
  dsimp only at hok
  split at hok
  · exact SegOutcome.noConfusion hok
  · next entries hsome =>
    rw [hchain] at hsome
    injection hsome with hs
    subst hs
    rw [scanStep_foldl] at hok
    cases hlast : (l.filter (candB (next_multiple_of size SegmentMetadata.SIZE)
        (next_multiple_of size SegmentMetadata.SIZE + SegmentMetadata.SIZE)
        (max align SegmentMetadata.SIZE))).getLast? with
    | none =>
      simp only [hlast] at hok
      exact SegOutcome.noConfusion hok
    | some e =>
      simp only [hlast] at hok
      split at hok
      · next st' nb hcr =>
        injection hok with h1 h2
        have hp' : SegmentMetadata.alloc_start_ptr nb = p ∧
            next_multiple_of size SegmentMetadata.SIZE = len := by
          constructor
          · exact congrArg Prod.fst h2
          · exact congrArg Prod.snd h2
        obtain ⟨hpval, hlenval⟩ := hp'
        have he_mem : e ∈ l := List.mem_of_mem_filter (List.mem_of_mem_getLast? hlast)
        obtain ⟨c, mc⟩ := e
        have helem := blocksOk_elem s.mem l s.start 0 hblocks (c, mc) he_mem
        have hc16 : c % 16 = 0 :=
          blocksOk_addr_mod s.mem l s.start 0 hblocks hst16 (c, mc) he_mem
        have hral0 : 0 < max align SegmentMetadata.SIZE :=
          isPow2_pos _ hra2
        have hp_aligned : p % (max align SegmentMetadata.SIZE) = 0 := by
          rcases create_ok_val s c (next_multiple_of size SegmentMetadata.SIZE +
              SegmentMetadata.SIZE) (max align SegmentMetadata.SIZE) st' nb hcr with
            ⟨hoff0, hveq⟩ | ⟨hoffne, hveq⟩
          · have : p = SegmentMetadata.alloc_start_ptr c := by
              rw [← hpval, hveq]
            rw [this]
            exact (align_offset_eq_zero_iff _ _ hral0).mp hoff0
          · obtain ⟨hge, hmod16⟩ := align_offset_ge_SIZE c (max align SegmentMetadata.SIZE)
              hc16 hra2 hoffne
            have hmax : max (align_offset (SegmentMetadata.alloc_start_ptr c)
                (max align SegmentMetadata.SIZE)) SegmentMetadata.SIZE =
                align_offset (SegmentMetadata.alloc_start_ptr c)
                  (max align SegmentMetadata.SIZE) :=
              Nat.max_eq_left hge
            rw [hmax] at hveq
            have hpeq : p = SegmentMetadata.alloc_start_ptr c +
                align_offset (SegmentMetadata.alloc_start_ptr c)
                  (max align SegmentMetadata.SIZE) := by
              rw [← hpval, hveq]
              have h1 : SegmentMetadata.alloc_start_ptr c = c + 16 := rfl
              have h2 : SegmentMetadata.SIZE = 16 := rfl
              have h3 : ∀ x, SegmentMetadata.alloc_start_ptr x = x + 16 := fun _ => rfl
              rw [h3]
              omega
            rw [hpeq]
            exact align_offset_add_mod _ _ hral0
        refine ⟨hlenval.symm, hp_aligned, ?_, ?_⟩
        · have hdvd : align ∣ p := hraal.trans (Nat.dvd_of_mod_eq_zero hp_aligned)
          exact Nat.dvd_iff_mod_eq_zero.mp hdvd
        · have hdvd : (16 : Nat) ∣ p := hra16.trans (Nat.dvd_of_mod_eq_zero hp_aligned)
          have h16 : SegmentMetadata.SIZE = 16 := rfl
          rw [h16]
          exact Nat.dvd_iff_mod_eq_zero.mp hdvd
      · next hcr => exact SegOutcome.noConfusion hok
      · next hcr => exact SegOutcome.noConfusion hok

/-- Witness for C7: a concrete 64-byte-aligned allocation on a fresh
manager returns a suitably aligned payload of the rounded length. -/
theorem c7_witness :
    (16 : Nat) = next_multiple_of 16 SegmentMetadata.SIZE ∧
      (64 : Nat) % (max 64 SegmentMetadata.SIZE) = 0 ∧ (64 : Nat) % 64 = 0 ∧
      (64 : Nat) % SegmentMetadata.SIZE = 0 :=
  c7_allocate_contract ⟨16, 16, 80, 1, [(16, ⟨0, 64⟩)]⟩ 16 64
    ⟨rfl, by decide, by decide, ⟨[(16, ⟨0, 64⟩)], by decide, by decide, by decide⟩⟩ (by decide)
    ⟨16, 16, 80, 2, [(16, ⟨0, 34⟩), (16, ⟨0, 32⟩), (48, ⟨16, 33⟩), (48, ⟨16, 33⟩),
      (16, ⟨0, 64⟩)]⟩ 64 16 (by decide)

-- A write at or past the continuation address of an initial run leaves the
-- run intact (every listed block ends at or before that address).
theorem blocksSeg_mwrite_ge (mem : Mem) (w : Nat) (v : SegmentMetadata)
    (l₁ : List (Nat × SegmentMetadata)) (a p c q : Nat)
    (h : blocksSeg mem a p l₁ (c, q) = true) (hw : c ≤ w) :
    blocksSeg (mwrite mem w v) a p l₁ (c, q) = true := by
  refine (blocksSeg_mwrite_iff mem w v l₁ a p (c, q) ?_).mpr h
  intro e he
  have h1 := (blocksSeg_elem mem l₁ a p c q h).2 e he
  have h2 := sizeLegal_facts e.2 h1.2.1
  omega

-- A write strictly before a chain's start address leaves the chain intact.
theorem blocksOk_mwrite_lt (mem : Mem) (w : Nat) (v : SegmentMetadata)
    (l : List (Nat × SegmentMetadata)) (a p : Nat)
    (h : blocksOk mem a p l = true) (hw : w < a) :
    blocksOk (mwrite mem w v) a p l = true := by
  refine (blocksOk_mwrite_iff mem w v l a p ?_).mpr h
  intro e he
  have h1 := blocksOk_elem mem l a p h e he
  omega

-- Glue an initial run onto a chain continuing at its expected address.
theorem blocksOk_glue (mem : Mem) (a p c q : Nat) (l₁ l₂ : List (Nat × SegmentMetadata))
    (h1 : blocksSeg mem a p l₁ (c, q) = true) (h2 : blocksOk mem c q l₂ = true) :
    blocksOk mem a p (l₁ ++ l₂) = true :=
  (blocksOk_append_iff mem l₁ a p l₂ (blocksOk_ne_nil _ _ _ _ h2)).mpr ⟨c, q, h1, h2⟩

-- Build one chain step from its field-level facts.
theorem blocksOk_cons_of (mem : Mem) (a p : Nat) (m : SegmentMetadata)
    (l : List (Nat × SegmentMetadata)) (hlk : mlookup mem a = some m) (hp : m.prev = p)
    (hleg : sizeLegal m = true)
    (h : (l = [] ∧ m.next_exists = false) ∨
      (m.next_exists = true ∧ blocksOk mem (a + m.size) a l = true)) :
    blocksOk mem a p ((a, m) :: l) = true := by
  rcases h with ⟨rfl, hne⟩ | ⟨hne, htail⟩
  · rw [blocksOk_singleton_iff]
    exact ⟨rfl, hlk, hp, hne, hleg⟩
  · obtain ⟨m2, l2, rfl, -, -⟩ := blocksOk_head _ _ _ _ htail
    rw [blocksOk_cons₂_iff]
    exact ⟨rfl, hlk, hp, hne, hleg, htail⟩

-- Destruct one chain step into its field-level facts.
theorem blocksOk_cons_elim (mem : Mem) (a p c : Nat) (m : SegmentMetadata)
    (l : List (Nat × SegmentMetadata)) (h : blocksOk mem a p ((c, m) :: l) = true) :
    a = c ∧ mlookup mem a = some m ∧ m.prev = p ∧ sizeLegal m = true ∧
      ((l = [] ∧ m.next_exists = false) ∨
        (m.next_exists = true ∧ blocksOk mem (a + m.size) a l = true)) := by
  cases l with
  | nil =>
    rw [blocksOk_singleton_iff] at h
    exact ⟨h.1, h.2.1, h.2.2.1, h.2.2.2.2, Or.inl ⟨rfl, h.2.2.2.1⟩⟩
  | cons e t =>
    rw [blocksOk_cons₂_iff] at h
    exact ⟨h.1, h.2.1, h.2.2.1, h.2.2.2.2.1, Or.inr ⟨h.2.2.2.1, h.2.2.2.2.2⟩⟩

-- Every `Err` of `create_used_segment` carries the untouched manager.
set_option maxHeartbeats 1600000 in
theorem create_err_st (s : MemorySegmenter) (segment req al : Nat) (st' : MemorySegmenter)
    (h : s.create_used_segment segment req al = .err st') : st' = s := by
  unfold MemorySegmenter.create_used_segment at h
  repeat' first
    | split at h
    | (dsimp only at h)
  all_goals first
    | exact absurd h (caseBFinish_ne_err _ _ _ _ _ _ _ st')
    | (injection h with h'; exact h'.symm)
    | injection h

-- Every `Err` of `delete_used_segment` carries the untouched manager.
set_option maxHeartbeats 800000 in
theorem delete_err_st (s : MemorySegmenter) (segment : Nat) (st' : MemorySegmenter)
    (h : s.delete_used_segment segment = .err st') : st' = s := by
  unfold MemorySegmenter.delete_used_segment at h
  repeat' first
    | split at h
    | (dsimp only at h)
  all_goals first
    | (injection h with h'; exact h'.symm)
    | injection h

-- A successful `create_used_segment` implies every guard was passed.
theorem create_ok_guards (s : MemorySegmenter) (segment req al : Nat) (m : SegmentMetadata)
    (st : MemorySegmenter) (v : Nat) (hb : segment ≠ 0)
    (hl : mlookup s.mem segment = some m)
    (h : s.create_used_segment segment req al = .ok st v) :
    m.in_use = false ∧ req ≤ m.size ∧ req % SegmentMetadata.SIZE = 0 ∧ isPow2 al = true ∧
      (align_offset (SegmentMetadata.alloc_start_ptr segment) al = 0 ∨
        (align_offset (SegmentMetadata.alloc_start_ptr segment) al ≠ 0 ∧
          SegmentMetadata.alloc_start_ptr segment +
              max (align_offset (SegmentMetadata.alloc_start_ptr segment) al)
                SegmentMetadata.SIZE - SegmentMetadata.SIZE + req ≤
            SegmentMetadata.end_exclusive segment m)) := by
  unfold MemorySegmenter.create_used_segment at h
  rw [if_neg hb] at h
  split at h
  · next hnone => rw [hl] at hnone; exact Option.noConfusion hnone
  · next seg0 hsome =>
    rw [hl] at hsome
    injection hsome with hs
    subst hs
    split at h
    · exact SegOutcome.noConfusion h
    · next hiu =>
      split at h
      · exact SegOutcome.noConfusion h
      · next hgt =>
        split at h
        · exact SegOutcome.noConfusion h
        · next hmod =>
          split at h
          · exact SegOutcome.noConfusion h
          · next hpw =>
            have hiu' : m.in_use = false := by
              cases hc : m.in_use with
              | false => rfl
              | true => exact absurd hc hiu
            have hp2 : isPow2 al = true := by
              cases hc : isPow2 al with
              | true => rfl
              | false => exact absurd (by simp [hc]) hpw
            split at h
            · next hoff0 =>
              exact ⟨hiu', by omega, by omega, hp2, Or.inl hoff0⟩
            · next hoffne =>
              dsimp only at h
              split at h
              · exact SegOutcome.noConfusion h
              · next hfit =>
                exact ⟨hiu', by omega, by omega, hp2, Or.inr ⟨hoffne, by omega⟩⟩

-- A successful `delete_used_segment` implies the block was in use and the
-- first of the chain (otherwise the `todo!()` panics).
theorem delete_ok_guards (s : MemorySegmenter) (segment : Nat) (m : SegmentMetadata)
    (st : MemorySegmenter) (v : Nat) (hb : segment ≠ 0)
    (hl : mlookup s.mem segment = some m)
    (h : s.delete_used_segment segment = .ok st v) :
    m.in_use = true ∧ m.prev = 0 := by
  unfold MemorySegmenter.delete_used_segment at h
  rw [if_neg hb] at h
  split at h
  · next hnone => rw [hl] at hnone; exact Option.noConfusion hnone
  · next seg0 hsome =>
    rw [hl] at hsome
    injection hsome with hs
    subst hs
    split at h
    · exact SegOutcome.noConfusion h
    · next hiu =>
      split at h
      · exact SegOutcome.noConfusion h
      · next hprev =>
        refine ⟨?_, by omega⟩
        cases hc : m.in_use with
        | true => rfl
        | false => exact absurd (by simp [hc]) hiu

-- Invariants hold on a freshly constructed manager over a legal region.
theorem Wf_new_aux (start endx : Nat) (h0 : start ≠ 0) (h16 : start % 16 = 0)
    (hsz : (endx - start) % 16 = 0) (hlt : start < endx) :
    Wf (MemorySegmenter.new start endx) := by
  refine ⟨rfl, h16, h0, [(start, SegmentMetadata.new 0 (endx - start) false false)], ?_, ?_, rfl⟩
  · rw [blocksOk_singleton_iff]
    refine ⟨rfl, by simp [MemorySegmenter.new, mlookup], rfl, by simp, ?_⟩
    have hs : (SegmentMetadata.new 0 (endx - start) false false).size = endx - start :=
      SegmentMetadata.new_size_of_mod _ _ _ _ (by omega)
    simp [sizeLegal, hs]
    omega
  · have hs : (SegmentMetadata.new 0 (endx - start) false false).size = endx - start :=
      SegmentMetadata.new_size_of_mod _ _ _ _ (by omega)
    rw [sumSizes_cons, sumSizes_nil, hs]
    show start + (endx - start + 0) = endx
    omega

-- `sizeLegal` ignores the flag bits.
theorem sizeLegal_of_size_eq (m : SegmentMetadata) (n : Nat) (hsz : m.size = n)
    (h16 : n % 16 = 0) (h0 : n ≠ 0) : sizeLegal m = true := by
  simp [sizeLegal, hsz, h16, h0]


-- Introduce `Wf` on an explicit record, keeping every field syntactically
-- visible for the chain lemmas.
theorem Wf_fields (hd stt en nn : Nat) (mem : Mem) (l : List (Nat × SegmentMetadata))
    (h1 : hd = stt) (h2 : stt % 16 = 0) (h3 : stt ≠ 0)
    (h4 : blocksOk mem stt 0 l = true) (h5 : stt + sumSizes l = en)
    (h6 : l.length = nn) : Wf ⟨hd, stt, en, nn, mem⟩ :=
  ⟨h1, h2, h3, l, h4, h5, h6⟩

-- `delete_used_segment` preserves the manager invariants on every non-panic
-- outcome at a chain block.
theorem delete_preserves_Wf (s : MemorySegmenter) (segment : Nat) (st : MemorySegmenter)
    (v : Nat) (hWf : Wf s) (hblk : blockOf s segment)
    (h : s.delete_used_segment segment = .ok st v ∨
      s.delete_used_segment segment = .err st) : Wf st := by
  obtain ⟨hhead, hst16, hst0, l, hOk, hsum, hlen⟩ := hWf
  rcases h with hok | herr
  swap
  · rw [delete_err_st s segment st herr]
    exact ⟨hhead, hst16, hst0, l, hOk, hsum, hlen⟩
  obtain ⟨l', m, hOk', hmem⟩ := hblk
  have hll : l' = l := blocksOk_unique s.mem l' s.start 0 l hOk' hOk
  rw [hll] at hmem
  obtain ⟨l₁, l₂, q, hldecomp, hseg, hsuf⟩ :=
    blocksOk_mem_decomp s.mem s.start 0 segment m l hOk hmem
  have helem := blocksOk_elem s.mem l s.start 0 hOk (segment, m) hmem
  dsimp only at helem
  have hl : mlookup s.mem segment = some m := helem.1
  have hlegm : sizeLegal m = true := helem.2.1
  have hm16 := (sizeLegal_facts m hlegm).1
  have hm0 := (sizeLegal_facts m hlegm).2
  have hstart16 : 16 ≤ s.start := by omega
  have hb : segment ≠ 0 := by have := helem.2.2.1; omega
  obtain ⟨hiu, hprev⟩ := delete_ok_guards s segment m st v hb hl hok
  obtain ⟨-, -, hmq, -, htail⟩ := blocksOk_cons_elim s.mem segment q segment m l₂ hsuf
  have hq0 : q = 0 := by rw [hprev] at hmq; exact hmq.symm
  subst hq0
  obtain ⟨hl₁nil, hsegstart⟩ : l₁ = [] ∧ s.start = segment := by
    rcases blocksSeg_last s.mem l₁ s.start 0 segment 0 hseg with ⟨h1, h2, -⟩ | ⟨m', hm', -⟩
    · exact ⟨h1, h2⟩
    · exfalso
      have := (blocksSeg_elem s.mem l₁ s.start 0 segment 0 hseg).2 (0, m') hm'
      dsimp only at this
      omega
  subst hsegstart
  subst hl₁nil
  rw [List.nil_append] at hldecomp
  subst hldecomp
  rw [sumSizes_cons] at hsum
  rw [List.length_cons] at hlen
  rcases htail with ⟨hl₂nil, hne⟩ | ⟨hne, htail2⟩
  · -- the deleted block is the only block
    subst hl₂nil
    have heq := delete_only_eq s s.start m hb hl hiu hprev hne
    rw [heq] at hok
    injection hok with h1 h2
    subst h1
    refine Wf_fields _ _ _ _ _ [(s.start, m.set_in_use false)] hhead hst16 hst0 ?_ ?_ ?_
    · rw [blocksOk_singleton_iff]
      exact ⟨rfl, mlookup_mwrite_same _ _ _, by simp [hprev], by simp [hne],
        sizeLegal_of_size_eq _ m.size (by simp) hm16 hm0⟩
    · rw [sumSizes_cons, sumSizes_nil, SegmentMetadata.set_in_use_size]
      rw [sumSizes_nil] at hsum
      omega
    · simp only [List.length_cons, List.length_nil]
      simp only [List.length_nil] at hlen
      omega
  · -- a next block exists
    obtain ⟨mn, l₂', hl₂eq, hlmn, hmnprev⟩ := blocksOk_head _ _ _ _ htail2
    subst hl₂eq
    obtain ⟨-, -, -, hlegmn, htail3⟩ :=
      blocksOk_cons_elim s.mem (s.start + m.size) s.start (s.start + m.size) mn l₂' htail2
    have hmn16 := (sizeLegal_facts mn hlegmn).1
    have hmn0 := (sizeLegal_facts mn hlegmn).2
    rw [sumSizes_cons] at hsum
    rw [List.length_cons] at hlen
    cases hmnu : mn.in_use with
    | true =>
      -- next block in use: no coalescing, clear the flag in place
      have heq := delete_next_used_eq s s.start m mn hb hl hiu hprev hne hlmn hmnu
      rw [heq] at hok
      injection hok with h1 h2
      subst h1
      refine Wf_fields _ _ _ _ _
        ((s.start, m.set_in_use false) :: (s.start + m.size, mn) :: l₂')
        hhead hst16 hst0 ?_ ?_ ?_
      · refine blocksOk_cons_of _ _ _ _ _ (mlookup_mwrite_same _ _ _) (by simp [hprev])
          (sizeLegal_of_size_eq _ m.size (by simp) hm16 hm0) (Or.inr ⟨by simp [hne], ?_⟩)
        rw [SegmentMetadata.set_in_use_size]
        exact blocksOk_mwrite_lt _ _ _ _ _ _ htail2 (by omega)
      · rw [sumSizes_cons, sumSizes_cons, SegmentMetadata.set_in_use_size]
        omega
      · rw [List.length_cons, List.length_cons]
        omega
    | false =>
      -- free next block: coalesce it into the first block
      obtain ⟨seg2, hseg2, hs2size, hs2use, hs2ne, hs2prev, hNoNext, hNext⟩ :=
        delete_merge_eq s s.start m mn hb hl hiu hprev hne hlmn hmnu
          (by omega) (by omega)
      rcases htail3 with ⟨hl₂'nil, hmnne⟩ | ⟨hmnne, htail4⟩
      · -- nothing follows the absorbed block
        subst hl₂'nil
        have heq := hNoNext hmnne
        rw [heq] at hok
        injection hok with h1 h2
        subst h1
        refine Wf_fields _ _ _ _ _ [(s.start, seg2.set_in_use false)] hhead hst16 hst0
          ?_ ?_ ?_
        · rw [blocksOk_singleton_iff]
          refine ⟨rfl, mlookup_mwrite_same _ _ _, by simp [hs2prev, hprev], ?_,
            sizeLegal_of_size_eq _ (m.size + mn.size) (by simp [hs2size]) (by omega)
              (by omega)⟩
          simp [hs2ne, hmnne]
        · rw [sumSizes_cons, sumSizes_nil, SegmentMetadata.set_in_use_size, hs2size]
          rw [sumSizes_nil] at hsum
          omega
        · simp only [List.length_cons, List.length_nil]
          simp only [List.length_nil] at hlen
          omega
      · -- a block follows the absorbed block: its prev is repointed
        obtain ⟨mnn, l₂'', hl₂''eq, hlmnn, hmnnprev⟩ := blocksOk_head _ _ _ _ htail4
        subst hl₂''eq
        obtain ⟨-, -, -, hlegmnn, htail5⟩ := blocksOk_cons_elim s.mem
          (s.start + m.size + mn.size) (s.start + m.size) (s.start + m.size + mn.size)
          mnn l₂'' htail4
        have hmnn16 := (sizeLegal_facts mnn hlegmnn).1
        have hmnn0 := (sizeLegal_facts mnn hlegmnn).2
        have hlmnn' : mlookup s.mem (s.start + (m.size + mn.size)) = some mnn := by
          rw [show s.start + (m.size + mn.size) = s.start + m.size + mn.size by omega]
          exact hlmnn
        have heq := hNext mnn hmnne hlmnn'
        rw [heq] at hok
        injection hok with h1 h2
        subst h1
        refine Wf_fields _ _ _ _ _ ((s.start, seg2.set_in_use false) ::
          (s.start + (m.size + mn.size), mnn.set_prev s.start) :: l₂'') hhead hst16 hst0
          ?_ ?_ ?_
        · refine blocksOk_cons_of _ _ _ _ _ (mlookup_mwrite_same _ _ _)
            (by simp [hs2prev, hprev])
            (sizeLegal_of_size_eq _ (m.size + mn.size) (by simp [hs2size]) (by omega)
              (by omega))
            (Or.inr ⟨by simp [hs2ne, hmnne], ?_⟩)
          rw [SegmentMetadata.set_in_use_size, hs2size]
          refine blocksOk_cons_of _ _ _ _ _ ?_ (by simp) ?_ ?_
          · rw [mlookup_mwrite_ne _ _ _ _ (by omega), mlookup_mwrite_same]
          · exact sizeLegal_of_size_eq _ mnn.size (by simp) hmnn16 hmnn0
          · rcases htail5 with ⟨hl₂''nil, hmnnne⟩ | ⟨hmnnne, htail6⟩
            · exact Or.inl ⟨hl₂''nil, by simp [hmnnne]⟩
            · refine Or.inr ⟨by simp [hmnnne], ?_⟩
              rw [SegmentMetadata.set_prev_size]
              have htail6' : blocksOk s.mem (s.start + (m.size + mn.size) + mnn.size)
                  (s.start + (m.size + mn.size)) l₂'' = true := by
                rw [show s.start + (m.size + mn.size) + mnn.size =
                  s.start + m.size + mn.size + mnn.size by omega,
                  show s.start + (m.size + mn.size) = s.start + m.size + mn.size by omega]
                exact htail6
              refine blocksOk_mwrite_lt _ _ _ _ _ _ ?_ (by omega)
              refine blocksOk_mwrite_lt _ _ _ _ _ _ ?_ (by omega)
              exact blocksOk_mwrite_lt _ _ _ _ _ _ htail6' (by omega)
        · rw [sumSizes_cons, sumSizes_cons, SegmentMetadata.set_in_use_size, hs2size,
            SegmentMetadata.set_prev_size]
          rw [sumSizes_cons] at hsum
          omega
        · rw [List.length_cons, List.length_cons]
          rw [List.length_cons] at hlen
          omega

-- `create_used_segment` with a nonzero request preserves the manager
-- invariants on every non-panic outcome at a chain block.
set_option maxHeartbeats 3200000 in
theorem create_preserves_Wf (s : MemorySegmenter) (segment req al : Nat)
    (st : MemorySegmenter) (v : Nat) (hWf : Wf s) (hblk : blockOf s segment)
    (hreq0 : req ≠ 0)
    (h : s.create_used_segment segment req al = .ok st v ∨
      s.create_used_segment segment req al = .err st) : Wf st := by
  obtain ⟨hhead, hst16, hst0, l, hOk, hsum, hlen⟩ := hWf
  rcases h with hok | herr
  swap
  · rw [create_err_st s segment req al st herr]
    exact ⟨hhead, hst16, hst0, l, hOk, hsum, hlen⟩
  obtain ⟨l', m, hOk', hmem⟩ := hblk
  have hll : l' = l := blocksOk_unique s.mem l' s.start 0 l hOk' hOk
  rw [hll] at hmem
  obtain ⟨l₁, l₂, q, hldecomp, hseg, hsuf⟩ :=
    blocksOk_mem_decomp s.mem s.start 0 segment m l hOk hmem
  have helem := blocksOk_elem s.mem l s.start 0 hOk (segment, m) hmem
  dsimp only at helem
  have hl : mlookup s.mem segment = some m := helem.1
  have hlegm : sizeLegal m = true := helem.2.1
  have hm16 := (sizeLegal_facts m hlegm).1
  have hm0 := (sizeLegal_facts m hlegm).2
  have hstart16 : 16 ≤ s.start := by omega
  have hb : segment ≠ 0 := by have := helem.2.2.1; omega
  have hseg16 : segment % 16 = 0 :=
    blocksOk_addr_mod s.mem l s.start 0 hOk hst16 (segment, m) hmem
  obtain ⟨hu, hsz, hmod, hp2, hoffcase⟩ := create_ok_guards s segment req al m st v hb hl hok
  have hmod16 : req % 16 = 0 := hmod
  obtain ⟨-, -, hmq, -, htail⟩ := blocksOk_cons_elim s.mem segment q segment m l₂ hsuf
  subst hldecomp
  rw [sumSizes_append, sumSizes_cons] at hsum
  rw [List.length_append, List.length_cons] at hlen
  rcases hoffcase with hoff0 | ⟨hoffne, hfit0⟩
  · -- Case A: the payload pointer is already aligned
    by_cases heqsz : m.size = req
    · -- exact fit: the candidate is marked in use
      have heq := create_caseA_full_eq s segment req al m hb hl hu hmod hp2 hoff0 heqsz
      rw [heq] at hok
      injection hok with h1 h2
      subst h1
      refine Wf_fields _ _ _ _ _ (l₁ ++ (segment, m.set_in_use true) :: l₂)
        hhead hst16 hst0 ?_ ?_ ?_
      · refine blocksOk_glue _ _ _ segment q l₁ _ ?_ ?_
        · exact blocksSeg_mwrite_ge _ _ _ _ _ _ _ _ hseg (by omega)
        · refine blocksOk_cons_of _ _ _ _ _ (mlookup_mwrite_same _ _ _) (by simp [hmq])
            (sizeLegal_of_size_eq _ m.size (by simp) hm16 hm0) ?_
          rcases htail with ⟨hl₂nil, hne⟩ | ⟨hne, htail2⟩
          · exact Or.inl ⟨hl₂nil, by simp [hne]⟩
          · refine Or.inr ⟨by simp [hne], ?_⟩
            rw [SegmentMetadata.set_in_use_size]
            exact blocksOk_mwrite_lt _ _ _ _ _ _ htail2 (by omega)
      · simp only [sumSizes_append, sumSizes_cons, SegmentMetadata.set_in_use_size]
        omega
      · simp only [List.length_append, List.length_cons]
        omega
    · -- proper split: truncate and write a trailing free block
      obtain ⟨seg2, hseg2, hs2size, hs2use, hs2ne, hs2prev, hNoNext, hNext⟩ :=
        create_caseA_split_eq s segment req al m hb hl hu hmod hp2 hoff0 hsz
          (by omega) hreq0 (by omega)
      rcases htail with ⟨hl₂nil, hne⟩ | ⟨hne, htail2⟩
      · -- candidate was the last block
        subst hl₂nil
        have heq := hNoNext hne
        rw [heq] at hok
        injection hok with h1 h2
        subst h1
        refine Wf_fields _ _ _ _ _ (l₁ ++ (segment, seg2.set_next_exists true) ::
          (segment + req,
            (SegmentMetadata.new segment (m.size - req) false m.next_exists).set_prev
              segment) :: []) hhead hst16 hst0 ?_ ?_ ?_
        · refine blocksOk_glue _ _ _ segment q l₁ _ ?_ ?_
          · refine blocksSeg_mwrite_ge _ _ _ _ _ _ _ _ ?_ (by omega)
            refine blocksSeg_mwrite_ge _ _ _ _ _ _ _ _ ?_ (by omega)
            refine blocksSeg_mwrite_ge _ _ _ _ _ _ _ _ ?_ (by omega)
            refine blocksSeg_mwrite_ge _ _ _ _ _ _ _ _ ?_ (by omega)
            exact blocksSeg_mwrite_ge _ _ _ _ _ _ _ _ hseg (by omega)
          · refine blocksOk_cons_of _ _ _ _ _ ?_ (by simp [hs2prev, hmq])
              (sizeLegal_of_size_eq _ req (by simp [hs2size]) hmod16 hreq0)
              (Or.inr ⟨by simp, ?_⟩)
            · rw [mlookup_mwrite_ne _ _ _ _ (by omega)]
              exact mlookup_mwrite_same _ _ _
            · rw [SegmentMetadata.set_next_exists_size, hs2size]
              rw [blocksOk_singleton_iff]
              refine ⟨rfl, mlookup_mwrite_same _ _ _, by simp, by simp [hne],
                sizeLegal_of_size_eq _ (m.size - req)
                  (by simp only [SegmentMetadata.set_prev_size]
                      exact SegmentMetadata.new_size_of_mod _ _ _ _ (by omega))
                  (by omega) (by omega)⟩
        · simp only [sumSizes_append, sumSizes_cons, sumSizes_nil,
            SegmentMetadata.set_next_exists_size, SegmentMetadata.set_prev_size,
            SegmentMetadata.new_size, hs2size]
          simp only [sumSizes_nil] at hsum
          omega
        · simp only [List.length_append, List.length_cons, List.length_nil]
          simp only [List.length_nil] at hlen
          omega
      · -- a block follows the candidate: its prev is repointed
        obtain ⟨mn, l₂', hl₂eq, hlmn, hmnprev⟩ := blocksOk_head _ _ _ _ htail2
        subst hl₂eq
        obtain ⟨-, -, -, hlegmn, htail3⟩ := blocksOk_cons_elim s.mem (segment + m.size)
          segment (segment + m.size) mn l₂' htail2
        have hmn16 := (sizeLegal_facts mn hlegmn).1
        have hmn0 := (sizeLegal_facts mn hlegmn).2
        rw [sumSizes_cons] at hsum
        rw [List.length_cons] at hlen
        have heq := hNext mn hne hlmn
        rw [heq] at hok
        injection hok with h1 h2
        subst h1
        refine Wf_fields _ _ _ _ _ (l₁ ++ (segment, seg2.set_next_exists true) ::
          (segment + req,
            (SegmentMetadata.new segment (m.size - req) false m.next_exists).set_prev
              segment) :: (segment + m.size, mn.set_prev (segment + req)) :: l₂')
          hhead hst16 hst0 ?_ ?_ ?_
        · refine blocksOk_glue _ _ _ segment q l₁ _ ?_ ?_
          · refine blocksSeg_mwrite_ge _ _ _ _ _ _ _ _ ?_ (by omega)
            refine blocksSeg_mwrite_ge _ _ _ _ _ _ _ _ ?_ (by omega)
            refine blocksSeg_mwrite_ge _ _ _ _ _ _ _ _ ?_ (by omega)
            refine blocksSeg_mwrite_ge _ _ _ _ _ _ _ _ ?_ (by omega)
            refine blocksSeg_mwrite_ge _ _ _ _ _ _ _ _ ?_ (by omega)
            exact blocksSeg_mwrite_ge _ _ _ _ _ _ _ _ hseg (by omega)
          · refine blocksOk_cons_of _ _ _ _ _ ?_ (by simp [hs2prev, hmq])
              (sizeLegal_of_size_eq _ req (by simp [hs2size]) hmod16 hreq0)
              (Or.inr ⟨by simp, ?_⟩)
            · rw [mlookup_mwrite_ne _ _ _ _ (by omega),
                mlookup_mwrite_ne _ _ _ _ (by omega)]
              exact mlookup_mwrite_same _ _ _
            · rw [SegmentMetadata.set_next_exists_size, hs2size]
              refine blocksOk_cons_of _ _ _ _ _ ?_ (by simp) ?_ (Or.inr ⟨by simp [hne], ?_⟩)
              · rw [mlookup_mwrite_ne _ _ _ _ (by omega)]
                exact mlookup_mwrite_same _ _ _
              · refine sizeLegal_of_size_eq _ (m.size - req) ?_ (by omega) (by omega)
                simp only [SegmentMetadata.set_prev_size]
                exact SegmentMetadata.new_size_of_mod _ _ _ _ (by omega)
              · simp only [SegmentMetadata.set_prev_size]
                rw [SegmentMetadata.new_size_of_mod _ _ _ _ (by omega)]
                rw [show segment + req + (m.size - req) = segment + m.size by omega]
                refine blocksOk_cons_of _ _ _ _ _ (mlookup_mwrite_same _ _ _) (by simp)
                  (sizeLegal_of_size_eq _ mn.size (by simp) hmn16 hmn0) ?_
                rcases htail3 with ⟨hl₂'nil, hmnne⟩ | ⟨hmnne, htail4⟩
                · exact Or.inl ⟨hl₂'nil, by simp [hmnne]⟩
                · refine Or.inr ⟨by simp [hmnne], ?_⟩
                  rw [SegmentMetadata.set_prev_size]
                  refine blocksOk_mwrite_lt _ _ _ _ _ _ ?_ (by omega)
                  refine blocksOk_mwrite_lt _ _ _ _ _ _ ?_ (by omega)
                  refine blocksOk_mwrite_lt _ _ _ _ _ _ ?_ (by omega)
                  refine blocksOk_mwrite_lt _ _ _ _ _ _ ?_ (by omega)
                  refine blocksOk_mwrite_lt _ _ _ _ _ _ ?_ (by omega)
                  exact blocksOk_mwrite_lt _ _ _ _ _ _ htail4 (by omega)
        · simp only [sumSizes_append, sumSizes_cons, sumSizes_nil,
            SegmentMetadata.set_next_exists_size, SegmentMetadata.set_prev_size,
            SegmentMetadata.new_size, hs2size]
          omega
        · simp only [List.length_append, List.length_cons, List.length_nil]
          omega
  · -- Case B: alignment shift
    have hge := align_offset_ge_SIZE segment al hseg16 hp2 hoffne
    have h16 : SegmentMetadata.SIZE = 16 := rfl
    have hasp : SegmentMetadata.alloc_start_ptr segment = segment + 16 := rfl
    have hend : SegmentMetadata.end_exclusive segment m = segment + m.size := rfl
    obtain ⟨off, hoffeq⟩ :
        ∃ o, align_offset (SegmentMetadata.alloc_start_ptr segment) al = o := ⟨_, rfl⟩
    rw [hoffeq] at hge hfit0
    have hoffge16 : 16 ≤ off := by have := hge.1; omega
    have hoff16 : off % 16 = 0 := hge.2
    have hfit : segment + off + req ≤ segment + m.size := by
      rw [hasp, h16, hend] at hfit0
      rw [Nat.max_eq_left (by omega : (16:Nat) ≤ off)] at hfit0
      omega
    have hCB := create_caseB_eq s segment req al m off hb hl hu hsz hmod hp2 hoffeq
      (by omega) hreq0 hfit
    obtain ⟨segR, hsegR⟩ : ∃ r, m.set_size (segment + off - segment) = some r :=
      ⟨_, SegmentMetadata.set_size_of_mod _ _ (by omega)⟩
    obtain ⟨-, hsegRsize, hsegRuse, hsegRne, hsegRprev⟩ :=
      SegmentMetadata.set_size_spec _ _ _ hsegR
    by_cases hexact : segment + off + req = segment + m.size
    · -- exact fit after the shift: no trailing block
      have heq1 := hCB.1 hexact
      rcases htail with ⟨hl₂nil, hne⟩ | ⟨hne, htail2⟩
      · -- candidate was the last block
        subst hl₂nil
        have heq2 := caseBFinish_nonext_eq s segment m segR (segment + off) (segment + off)
          (mwrite (mwrite s.mem (segment + off) (SegmentMetadata.new segment req true false))
            (segment + off)
            ((SegmentMetadata.new segment req true false).set_next_exists m.next_exists))
          (s.num_nodes + 1) hne hsegR
        rw [heq1, heq2] at hok
        injection hok with h1 h2
        subst h1
        refine Wf_fields _ _ _ _ _ (l₁ ++ (segment, segR.set_next_exists true) ::
          (segment + off,
            (SegmentMetadata.new segment req true false).set_next_exists m.next_exists) :: [])
          hhead hst16 hst0 ?_ ?_ ?_
        · refine blocksOk_glue _ _ _ segment q l₁ _ ?_ ?_
          · refine blocksSeg_mwrite_ge _ _ _ _ _ _ _ _ ?_ (by omega)
            refine blocksSeg_mwrite_ge _ _ _ _ _ _ _ _ ?_ (by omega)
            refine blocksSeg_mwrite_ge _ _ _ _ _ _ _ _ ?_ (by omega)
            exact blocksSeg_mwrite_ge _ _ _ _ _ _ _ _ hseg (by omega)
          · refine blocksOk_cons_of _ _ _ _ _ (mlookup_mwrite_same _ _ _)
              (by simp [hsegRprev, hmq])
              (sizeLegal_of_size_eq _ off
                (by simp only [SegmentMetadata.set_next_exists_size]; omega) hoff16 (by omega))
              (Or.inr ⟨by simp, ?_⟩)
            rw [SegmentMetadata.set_next_exists_size,
              show segR.size = off by omega]
            rw [blocksOk_singleton_iff]
            refine ⟨rfl, ?_, by simp, by simp [hne], ?_⟩
            · rw [mlookup_mwrite_ne _ _ _ _ (by omega),
                mlookup_mwrite_ne _ _ _ _ (by omega)]
              exact mlookup_mwrite_same _ _ _
            · refine sizeLegal_of_size_eq _ req ?_ hmod16 hreq0
              simp only [SegmentMetadata.set_next_exists_size]
              exact SegmentMetadata.new_size_of_mod _ _ _ _ (by omega)
        · simp only [sumSizes_append, sumSizes_cons, sumSizes_nil,
            SegmentMetadata.set_next_exists_size, SegmentMetadata.new_size]
          simp only [sumSizes_nil] at hsum
          omega
        · simp only [List.length_append, List.length_cons, List.length_nil]
          simp only [List.length_nil] at hlen
          omega
      · -- a block follows the candidate
        obtain ⟨mn, l₂', hl₂eq, hlmn, hmnprev⟩ := blocksOk_head _ _ _ _ htail2
        subst hl₂eq
        obtain ⟨-, -, -, hlegmn, htail3⟩ := blocksOk_cons_elim s.mem (segment + m.size)
          segment (segment + m.size) mn l₂' htail2
        have hmn16 := (sizeLegal_facts mn hlegmn).1
        have hmn0 := (sizeLegal_facts mn hlegmn).2
        rw [sumSizes_cons] at hsum
        rw [List.length_cons] at hlen
        have hmn2 : mlookup
            (mwrite (mwrite s.mem (segment + off) (SegmentMetadata.new segment req true false))
              (segment + off)
              ((SegmentMetadata.new segment req true false).set_next_exists m.next_exists))
            (segment + m.size) = some mn := by
          rw [mlookup_mwrite_ne _ _ _ _ (by omega), mlookup_mwrite_ne _ _ _ _ (by omega)]
          exact hlmn
        have heq2 := caseBFinish_next_eq s segment m mn segR (segment + off) (segment + off)
          (mwrite (mwrite s.mem (segment + off) (SegmentMetadata.new segment req true false))
            (segment + off)
            ((SegmentMetadata.new segment req true false).set_next_exists m.next_exists))
          (s.num_nodes + 1) hne hmn2 hsegR
        rw [heq1, heq2] at hok
        injection hok with h1 h2
        subst h1
        refine Wf_fields _ _ _ _ _ (l₁ ++ (segment, segR.set_next_exists true) ::
          (segment + off,
            (SegmentMetadata.new segment req true false).set_next_exists m.next_exists) ::
          (segment + m.size, mn.set_prev (segment + off)) :: l₂')
          hhead hst16 hst0 ?_ ?_ ?_
        · refine blocksOk_glue _ _ _ segment q l₁ _ ?_ ?_
          · refine blocksSeg_mwrite_ge _ _ _ _ _ _ _ _ ?_ (by omega)
            refine blocksSeg_mwrite_ge _ _ _ _ _ _ _ _ ?_ (by omega)
            refine blocksSeg_mwrite_ge _ _ _ _ _ _ _ _ ?_ (by omega)
            refine blocksSeg_mwrite_ge _ _ _ _ _ _ _ _ ?_ (by omega)
            exact blocksSeg_mwrite_ge _ _ _ _ _ _ _ _ hseg (by omega)
          · refine blocksOk_cons_of _ _ _ _ _ (mlookup_mwrite_same _ _ _)
              (by simp [hsegRprev, hmq])
              (sizeLegal_of_size_eq _ off
                (by simp only [SegmentMetadata.set_next_exists_size]; omega) hoff16 (by omega))
              (Or.inr ⟨by simp, ?_⟩)
            rw [SegmentMetadata.set_next_exists_size, show segR.size = off by omega]
            refine blocksOk_cons_of _ _ _ _ _ ?_ (by simp) ?_
              (Or.inr ⟨by simp [hne], ?_⟩)
            · rw [mlookup_mwrite_ne _ _ _ _ (by omega),
                mlookup_mwrite_ne _ _ _ _ (by omega),
                mlookup_mwrite_ne _ _ _ _ (by omega)]
              exact mlookup_mwrite_same _ _ _
            · refine sizeLegal_of_size_eq _ req ?_ hmod16 hreq0
              simp only [SegmentMetadata.set_next_exists_size]
              exact SegmentMetadata.new_size_of_mod _ _ _ _ (by omega)
            · simp only [SegmentMetadata.set_next_exists_size]
              rw [SegmentMetadata.new_size_of_mod _ _ _ _ (by omega)]
              rw [show segment + off + req = segment + m.size from hexact]
              refine blocksOk_cons_of _ _ _ _ _ ?_ (by simp)
                (sizeLegal_of_size_eq _ mn.size (by simp) hmn16 hmn0) ?_
              · rw [mlookup_mwrite_ne _ _ _ _ (by omega),
                  mlookup_mwrite_ne _ _ _ _ (by omega)]
                exact mlookup_mwrite_same _ _ _
              · rcases htail3 with ⟨hl₂'nil, hmnne⟩ | ⟨hmnne, htail4⟩
                · exact Or.inl ⟨hl₂'nil, by simp [hmnne]⟩
                · refine Or.inr ⟨by simp [hmnne], ?_⟩
                  rw [SegmentMetadata.set_prev_size]
                  refine blocksOk_mwrite_lt _ _ _ _ _ _ ?_ (by omega)
                  refine blocksOk_mwrite_lt _ _ _ _ _ _ ?_ (by omega)
                  refine blocksOk_mwrite_lt _ _ _ _ _ _ ?_ (by omega)
                  refine blocksOk_mwrite_lt _ _ _ _ _ _ ?_ (by omega)
                  exact blocksOk_mwrite_lt _ _ _ _ _ _ htail4 (by omega)
        · simp only [sumSizes_append, sumSizes_cons, sumSizes_nil,
            SegmentMetadata.set_next_exists_size, SegmentMetadata.set_prev_size,
            SegmentMetadata.new_size]
          omega
        · simp only [List.length_append, List.length_cons, List.length_nil]
          omega
    · -- strict fit after the shift: a trailing free block is written
      have hlt : segment + off + req < segment + m.size := by omega
      have heq1 := hCB.2 hlt
      rcases htail with ⟨hl₂nil, hne⟩ | ⟨hne, htail2⟩
      · -- candidate was the last block
        subst hl₂nil
        have heq2 := caseBFinish_nonext_eq s segment m segR (segment + off)
          (segment + off + req)
          (mwrite (mwrite (mwrite (mwrite s.mem (segment + off)
              (SegmentMetadata.new segment req true false))
            (segment + off + req)
            (SegmentMetadata.new (segment + off) (segment + m.size - (segment + off + req))
              false false))
            (segment + off + req)
            ((SegmentMetadata.new (segment + off) (segment + m.size - (segment + off + req))
              false false).set_next_exists m.next_exists))
            (segment + off) ((SegmentMetadata.new segment req true false).set_next_exists true))
          (s.num_nodes + 2) hne hsegR
        rw [heq1, heq2] at hok
        injection hok with h1 h2
        subst h1
        refine Wf_fields _ _ _ _ _ (l₁ ++ (segment, segR.set_next_exists true) ::
          (segment + off, (SegmentMetadata.new segment req true false).set_next_exists true) ::
          (segment + off + req,
            (SegmentMetadata.new (segment + off) (segment + m.size - (segment + off + req))
              false false).set_next_exists m.next_exists) :: [])
          hhead hst16 hst0 ?_ ?_ ?_
        · refine blocksOk_glue _ _ _ segment q l₁ _ ?_ ?_
          · refine blocksSeg_mwrite_ge _ _ _ _ _ _ _ _ ?_ (by omega)
            refine blocksSeg_mwrite_ge _ _ _ _ _ _ _ _ ?_ (by omega)
            refine blocksSeg_mwrite_ge _ _ _ _ _ _ _ _ ?_ (by omega)
            refine blocksSeg_mwrite_ge _ _ _ _ _ _ _ _ ?_ (by omega)
            refine blocksSeg_mwrite_ge _ _ _ _ _ _ _ _ ?_ (by omega)
            exact blocksSeg_mwrite_ge _ _ _ _ _ _ _ _ hseg (by omega)
          · refine blocksOk_cons_of _ _ _ _ _ (mlookup_mwrite_same _ _ _)
              (by simp [hsegRprev, hmq])
              (sizeLegal_of_size_eq _ off
                (by simp only [SegmentMetadata.set_next_exists_size]; omega) hoff16 (by omega))
              (Or.inr ⟨by simp, ?_⟩)
            rw [SegmentMetadata.set_next_exists_size, show segR.size = off by omega]
            refine blocksOk_cons_of _ _ _ _ _ ?_ (by simp) ?_ (Or.inr ⟨by simp, ?_⟩)
            · rw [mlookup_mwrite_ne _ _ _ _ (by omega),
                mlookup_mwrite_ne _ _ _ _ (by omega)]
              exact mlookup_mwrite_same _ _ _
            · refine sizeLegal_of_size_eq _ req ?_ hmod16 hreq0
              simp only [SegmentMetadata.set_next_exists_size]
              exact SegmentMetadata.new_size_of_mod _ _ _ _ (by omega)
            · simp only [SegmentMetadata.set_next_exists_size]
              rw [SegmentMetadata.new_size_of_mod _ _ _ _ (by omega)]
              rw [blocksOk_singleton_iff]
              refine ⟨rfl, ?_, by simp, by simp [hne], ?_⟩
              · rw [mlookup_mwrite_ne _ _ _ _ (by omega),
                  mlookup_mwrite_ne _ _ _ _ (by omega),
                  mlookup_mwrite_ne _ _ _ _ (by omega)]
                exact mlookup_mwrite_same _ _ _
              · refine sizeLegal_of_size_eq _ (segment + m.size - (segment + off + req)) ?_
                  (by omega) (by omega)
                simp only [SegmentMetadata.set_next_exists_size]
                exact SegmentMetadata.new_size_of_mod _ _ _ _ (by omega)
        · simp only [sumSizes_append, sumSizes_cons, sumSizes_nil,
            SegmentMetadata.set_next_exists_size, SegmentMetadata.new_size]
          simp only [sumSizes_nil] at hsum
          omega
        · simp only [List.length_append, List.length_cons, List.length_nil]
          simp only [List.length_nil] at hlen
          omega
      · -- a block follows the candidate
        obtain ⟨mn, l₂', hl₂eq, hlmn, hmnprev⟩ := blocksOk_head _ _ _ _ htail2
        subst hl₂eq
        obtain ⟨-, -, -, hlegmn, htail3⟩ := blocksOk_cons_elim s.mem (segment + m.size)
          segment (segment + m.size) mn l₂' htail2
        have hmn16 := (sizeLegal_facts mn hlegmn).1
        have hmn0 := (sizeLegal_facts mn hlegmn).2
        rw [sumSizes_cons] at hsum
        rw [List.length_cons] at hlen
        have hmn4 : mlookup
            (mwrite (mwrite (mwrite (mwrite s.mem (segment + off)
                (SegmentMetadata.new segment req true false))
              (segment + off + req)
              (SegmentMetadata.new (segment + off) (segment + m.size - (segment + off + req))
                false false))
              (segment + off + req)
              ((SegmentMetadata.new (segment + off) (segment + m.size - (segment + off + req))
                false false).set_next_exists m.next_exists))
              (segment + off) ((SegmentMetadata.new segment req true false).set_next_exists true))
            (segment + m.size) = some mn := by
          rw [mlookup_mwrite_ne _ _ _ _ (by omega), mlookup_mwrite_ne _ _ _ _ (by omega),
            mlookup_mwrite_ne _ _ _ _ (by omega), mlookup_mwrite_ne _ _ _ _ (by omega)]
          exact hlmn
        have heq2 := caseBFinish_next_eq s segment m mn segR (segment + off)
          (segment + off + req)
          (mwrite (mwrite (mwrite (mwrite s.mem (segment + off)
              (SegmentMetadata.new segment req true false))
            (segment + off + req)
            (SegmentMetadata.new (segment + off) (segment + m.size - (segment + off + req))
              false false))
            (segment + off + req)
            ((SegmentMetadata.new (segment + off) (segment + m.size - (segment + off + req))
              false false).set_next_exists m.next_exists))
            (segment + off) ((SegmentMetadata.new segment req true false).set_next_exists true))
          (s.num_nodes + 2) hne hmn4 hsegR
        rw [heq1, heq2] at hok
        injection hok with h1 h2
        subst h1
        refine Wf_fields _ _ _ _ _ (l₁ ++ (segment, segR.set_next_exists true) ::
          (segment + off, (SegmentMetadata.new segment req true false).set_next_exists true) ::
          (segment + off + req,
            (SegmentMetadata.new (segment + off) (segment + m.size - (segment + off + req))
              false false).set_next_exists m.next_exists) ::
          (segment + m.size, mn.set_prev (segment + off + req)) :: l₂')
          hhead hst16 hst0 ?_ ?_ ?_
        · refine blocksOk_glue _ _ _ segment q l₁ _ ?_ ?_
          · refine blocksSeg_mwrite_ge _ _ _ _ _ _ _ _ ?_ (by omega)
            refine blocksSeg_mwrite_ge _ _ _ _ _ _ _ _ ?_ (by omega)
            refine blocksSeg_mwrite_ge _ _ _ _ _ _ _ _ ?_ (by omega)
            refine blocksSeg_mwrite_ge _ _ _ _ _ _ _ _ ?_ (by omega)
            refine blocksSeg_mwrite_ge _ _ _ _ _ _ _ _ ?_ (by omega)
            refine blocksSeg_mwrite_ge _ _ _ _ _ _ _ _ ?_ (by omega)
            exact blocksSeg_mwrite_ge _ _ _ _ _ _ _ _ hseg (by omega)
          · refine blocksOk_cons_of _ _ _ _ _ (mlookup_mwrite_same _ _ _)
              (by simp [hsegRprev, hmq])
              (sizeLegal_of_size_eq _ off
                (by simp only [SegmentMetadata.set_next_exists_size]; omega) hoff16 (by omega))
              (Or.inr ⟨by simp, ?_⟩)
            rw [SegmentMetadata.set_next_exists_size, show segR.size = off by omega]
            refine blocksOk_cons_of _ _ _ _ _ ?_ (by simp) ?_ (Or.inr ⟨by simp, ?_⟩)
            · rw [mlookup_mwrite_ne _ _ _ _ (by omega),
                mlookup_mwrite_ne _ _ _ _ (by omega),
                mlookup_mwrite_ne _ _ _ _ (by omega)]
              exact mlookup_mwrite_same _ _ _
            · refine sizeLegal_of_size_eq _ req ?_ hmod16 hreq0
              simp only [SegmentMetadata.set_next_exists_size]
              exact SegmentMetadata.new_size_of_mod _ _ _ _ (by omega)
            · simp only [SegmentMetadata.set_next_exists_size]
              rw [SegmentMetadata.new_size_of_mod _ _ _ _ (by omega)]
              refine blocksOk_cons_of _ _ _ _ _ ?_ (by simp) ?_
                (Or.inr ⟨by simp [hne], ?_⟩)
              · rw [mlookup_mwrite_ne _ _ _ _ (by omega),
                  mlookup_mwrite_ne _ _ _ _ (by omega),
                  mlookup_mwrite_ne _ _ _ _ (by omega),
                  mlookup_mwrite_ne _ _ _ _ (by omega)]
                exact mlookup_mwrite_same _ _ _
              · refine sizeLegal_of_size_eq _ (segment + m.size - (segment + off + req)) ?_
                  (by omega) (by omega)
                simp only [SegmentMetadata.set_next_exists_size]
                exact SegmentMetadata.new_size_of_mod _ _ _ _ (by omega)
              · simp only [SegmentMetadata.set_next_exists_size]
                rw [SegmentMetadata.new_size_of_mod _ _ _ _ (by omega)]
                rw [show segment + off + req + (segment + m.size - (segment + off + req)) =
                  segment + m.size by omega]
                refine blocksOk_cons_of _ _ _ _ _ ?_ (by simp)
                  (sizeLegal_of_size_eq _ mn.size (by simp) hmn16 hmn0) ?_
                · rw [mlookup_mwrite_ne _ _ _ _ (by omega),
                    mlookup_mwrite_ne _ _ _ _ (by omega)]
                  exact mlookup_mwrite_same _ _ _
                · rcases htail3 with ⟨hl₂'nil, hmnne⟩ | ⟨hmnne, htail4⟩
                  · exact Or.inl ⟨hl₂'nil, by simp [hmnne]⟩
                  · refine Or.inr ⟨by simp [hmnne], ?_⟩
                    rw [SegmentMetadata.set_prev_size]
                    refine blocksOk_mwrite_lt _ _ _ _ _ _ ?_ (by omega)
                    refine blocksOk_mwrite_lt _ _ _ _ _ _ ?_ (by omega)
                    refine blocksOk_mwrite_lt _ _ _ _ _ _ ?_ (by omega)
                    refine blocksOk_mwrite_lt _ _ _ _ _ _ ?_ (by omega)
                    refine blocksOk_mwrite_lt _ _ _ _ _ _ ?_ (by omega)
                    refine blocksOk_mwrite_lt _ _ _ _ _ _ ?_ (by omega)
                    exact blocksOk_mwrite_lt _ _ _ _ _ _ htail4 (by omega)
        · simp only [sumSizes_append, sumSizes_cons, sumSizes_nil,
            SegmentMetadata.set_next_exists_size, SegmentMetadata.set_prev_size,
            SegmentMetadata.new_size]
          omega
        · simp only [List.length_append, List.length_cons, List.length_nil]
          omega

/-- C3 (amended: `create_used_segment` preserves the invariants only for a
NONZERO `subsegment_size`): after `new` on a legal region, and after every
`create_used_segment` call with nonzero `subsegment_size` or
`delete_used_segment` call on a chain block that returns (Ok or Err), the
manager invariants hold — the block sizes partition `end − start` exactly,
linkage (`prev` back-pointers, first block `prev == null`, last block
`next_exists == false`) holds along the chain, and the node count matches.
With `subsegment_size = 0` the invariants are violated (see the
counterexample): the split writes the new free header onto the candidate
itself, leaving a self-referential `prev` and an inflated node count. -/
theorem c3_invariants_preserved :
    (∀ start endx, start ≠ 0 → start % 16 = 0 → (endx - start) % 16 = 0 → start < endx →
      Wf (MemorySegmenter.new start endx)) ∧
    (∀ (s : MemorySegmenter) (segment req al : Nat) (st : MemorySegmenter) (v : Nat),
      Wf s → blockOf s segment → req ≠ 0 →
      (s.create_used_segment segment req al = .ok st v ∨
        s.create_used_segment segment req al = .err st) → Wf st) ∧
    (∀ (s : MemorySegmenter) (segment : Nat) (st : MemorySegmenter) (v : Nat),
      Wf s → blockOf s segment →
      (s.delete_used_segment segment = .ok st v ∨
        s.delete_used_segment segment = .err st) → Wf st) :=
  ⟨fun start endx h0 h16 hsz hlt => Wf_new_aux start endx h0 h16 hsz hlt,
   fun s segment req al st v hWf hblk hreq0 h =>
     create_preserves_Wf s segment req al st v hWf hblk hreq0 h,
   fun s segment st v hWf hblk h => delete_preserves_Wf s segment st v hWf hblk h⟩

/-- Witness for C3: a fresh manager over `[16, 48)`, a 16-byte allocation
splitting its single free block, and a deletion of a lone in-use block all
yield invariant-satisfying managers. -/
theorem c3_witness :
    Wf (MemorySegmenter.new 16 48) ∧
      Wf ⟨16, 16, 48, 2, [(32, ⟨16, 16⟩), (16, ⟨0, 19⟩), (32, ⟨16, 16⟩), (16, ⟨0, 17⟩),
        (16, ⟨0, 33⟩), (16, ⟨0, 32⟩)]⟩ ∧
      Wf ⟨16, 16, 48, 1, [(16, ⟨0, 32⟩), (16, ⟨0, 33⟩)]⟩ :=
  ⟨c3_invariants_preserved.1 16 48 (by decide) (by decide) (by decide) (by decide),
   c3_invariants_preserved.2.1 ⟨16, 16, 48, 1, [(16, ⟨0, 32⟩)]⟩ 16 16 16 _ 16
     ⟨rfl, by decide, by decide, [(16, ⟨0, 32⟩)], by decide, by decide, by decide⟩
     ⟨[(16, ⟨0, 32⟩)], ⟨0, 32⟩, by decide, by decide⟩ (by decide)
     (Or.inl (by decide)),
   c3_invariants_preserved.2.2 ⟨16, 16, 48, 1, [(16, ⟨0, 33⟩)]⟩ 16 _ 16
     ⟨rfl, by decide, by decide, [(16, ⟨0, 33⟩)], by decide, by decide, by decide⟩
     ⟨[(16, ⟨0, 33⟩)], ⟨0, 33⟩, by decide, by decide⟩
     (Or.inl (by decide))⟩

/-- Counterexample for C3 as stated: on an invariant-satisfying manager with
a free 32-byte first block and an in-use second block,
`create_used_segment(first, 0, 16)` returns `Ok` yet breaks the invariants —
the Case A split writes the new free header at `segment + 0`, i.e. onto the
candidate itself, so the first block's `prev` becomes a self-pointer
(nonnull) and `num_nodes` rises to 3 while only 2 blocks remain. -/
theorem c3_counterexample :
    Wf ⟨16, 16, 80, 2, [(16, ⟨0, 34⟩), (48, ⟨16, 33⟩)]⟩ ∧
      MemorySegmenter.create_used_segment ⟨16, 16, 80, 2, [(16, ⟨0, 34⟩), (48, ⟨16, 33⟩)]⟩
          16 0 16 =
        .ok ⟨16, 16, 80, 3, [(48, ⟨16, 33⟩), (16, ⟨16, 34⟩), (16, ⟨16, 34⟩), (16, ⟨16, 34⟩),
          (16, ⟨0, 3⟩), (16, ⟨0, 35⟩), (16, ⟨0, 34⟩), (48, ⟨16, 33⟩)]⟩ 16 ∧
      ¬ Wf ⟨16, 16, 80, 3, [(48, ⟨16, 33⟩), (16, ⟨16, 34⟩), (16, ⟨16, 34⟩), (16, ⟨16, 34⟩),
          (16, ⟨0, 3⟩), (16, ⟨0, 35⟩), (16, ⟨0, 34⟩), (48, ⟨16, 33⟩)]⟩ := by
  refine ⟨⟨rfl, by decide, by decide, [(16, ⟨0, 34⟩), (48, ⟨16, 33⟩)], by decide, by decide,
    by decide⟩, by decide, ?_⟩
  rintro ⟨-, -, -, l, hOk, -, -⟩
  obtain ⟨m, l', -, hlk, hprev⟩ := blocksOk_head _ _ _ _ hOk
  have hlk' : mlookup [(48, ⟨16, 33⟩), (16, ⟨16, 34⟩), (16, ⟨16, 34⟩), (16, ⟨16, 34⟩),
      (16, ⟨0, 3⟩), (16, ⟨0, 35⟩), (16, ⟨0, 34⟩), (48, ⟨16, 33⟩)] 16 = some m := hlk
  have h16 : mlookup [(48, ⟨16, 33⟩), (16, ⟨16, 34⟩), (16, ⟨16, 34⟩), (16, ⟨16, 34⟩),
      (16, ⟨0, 3⟩), (16, ⟨0, 35⟩), (16, ⟨0, 34⟩), (48, ⟨16, 33⟩)] 16 =
      some (⟨16, 34⟩ : SegmentMetadata) := by decide
  rw [h16] at hlk'
  injection hlk' with hm
  rw [← hm] at hprev
  exact absurd hprev (by decide)
